import Mathlib

/-!
# Chainy: chain maintenance, snapshot trigger and request service

A shallow embedding of `src/src/chainy.cc` (class `chainy::chainy_t`).

* Objects made by `std::make_shared<subscription_stream_t>` live in a heap
  (`chainy_t.heap`); a `std::shared_ptr` is the position of its object in that heap and a
  null `shared_ptr` is `none`.  Objects are never removed from the heap: an object whose last
  reference is dropped simply becomes unreachable.
* Raw handles (`RsslPayloadEntryHandle`, the `uintptr_t` of `snapshot_handle`) are natural
  numbers, `0` being `nullptr`.
* Calls into the collaborators whose code is not part of `chainy.cc` (the RSSL codec, the
  payload cache, `consumer_t`, `provider_t`) are answered by explicit oracle records, so that
  every pattern of successes and failures can be represented.
* Dereferencing an invalid pointer or iterator is undefined behaviour in C++; the embedding
  makes it explicit (`none`, or `Outcome.undefined`).
* `unsigned` counters (`index`, `part_number`) are natural numbers: they only count the links
  of one chain.
-/

namespace chainy

/-! ## Data model -/

/-- Return codes of the RSSL decoders, as far as `chainy.cc` distinguishes them:
`RSSL_RET_SUCCESS`, `RSSL_RET_BLANK_DATA`, and every other code. -/
inductive RsslRet where
  | RSSL_RET_SUCCESS
  | RSSL_RET_BLANK_DATA
  | RSSL_RET_FAILURE (code : Int)
deriving DecidableEq, Repr

/-- One iteration of `while (RSSL_RET_SUCCESS == (rc = rsslDecodeFieldEntry (&it, &field_entry)))`:
the decoded `fieldId`, and what `rsslDecodeBuffer (&it, &rssl_buffer)` answers if it is called on
this entry: its return code `rc` and the contents of `rssl_buffer` after the call. -/
structure RsslFieldEntry where
  fieldId : Nat
  rc : RsslRet
  rssl_buffer : String
deriving DecidableEq, Repr

/-- Class `subscription_stream_t` (declared in `chainy.hh`, which is not part of the sources;
the fields are the members `chainy.cc` uses, with their freshly constructed values in
`subscription_stream_t.fresh`). -/
structure subscription_stream_t where
  /-- Name the stream was registered under (`parent->item_name`). -/
  item_name : String
  /-- Token of the stream (`parent->token`). -/
  token : Int
  /-- Position of this link in its chain. -/
  index : Nat
  /-- For a root: the links of the chain, itself first.  For another link: its root. -/
  links : List (Option Nat)
  /-- Cache entry maintained by the consumer, read by `OnSync` and `OnTrigger`. -/
  payload_entry_handle : Nat
  /-- Copy-on-write cache entry written by `OnWrite`. -/
  cow_handle : Nat
  /-- Published snapshot, `std::atomic<uintptr_t>`. -/
  snapshot_handle : Nat
deriving DecidableEq, Repr

/-- Modelled from the spec: the constructor of `subscription_stream_t` (in `chainy.hh`, not part
of the sources): index 0, no links, all handles null, no name. -/
def subscription_stream_t.fresh : subscription_stream_t :=
  { item_name := "", token := 0, index := 0, links := [],
    payload_entry_handle := 0, cow_handle := 0, snapshot_handle := 0 }

/-- The payload of a refresh: the string list of the first `WriteRaw` overload or the cache
entry handle of the second. -/
inductive Payload where
  | symbol_list (v : List String)
  | payload_entry_handle (h : Nat)
deriving DecidableEq, Repr

/-- The fields of `RsslRefreshMsg response` that `WriteRaw` sets from its arguments. -/
structure RsslRefreshMsg where
  streamId : Int
  serviceId : Nat
  name : String
  partNum : Nat
  /-- Flag `RSSL_RFMF_CLEAR_CACHE`. -/
  clear_cache : Bool
  /-- Flag `RSSL_RFMF_REFRESH_COMPLETE`. -/
  refresh_complete : Bool
  payload : Payload
deriving DecidableEq, Repr

/-- Stream states used by `OnRequest` for its close messages. -/
inductive RsslStreamState where
  | RSSL_STREAM_CLOSED
  | RSSL_STREAM_CLOSED_RECOVER
deriving DecidableEq, Repr

/-- State codes used by `OnRequest` for its close messages. -/
inductive RsslStateCode where
  | RSSL_SC_NOT_FOUND
  | RSSL_SC_ERROR
deriving DecidableEq, Repr

/-- The arguments `OnRequest` passes to `provider_t::WriteRawClose`. -/
structure CloseMsg where
  rwf_version : Nat
  token : Int
  service_id : Nat
  item_name : String
  use_attribinfo_in_updates : Bool
  stream_state : RsslStreamState
  status_code : RsslStateCode
  status_text : String
deriving DecidableEq, Repr

/-- Contents of `provider_rssl_buf_` after a successful encode. -/
inductive Buffer where
  | refresh (m : RsslRefreshMsg)
  | close (m : CloseMsg)
deriving DecidableEq, Repr

/-- A message handed to the provider and accepted by it. -/
inductive Sent where
  /-- Call `provider_->SendReply (channel, token, buf, length, is_final)`. -/
  | SendReply (handle : Nat) (token : Int) (buf : Buffer) (is_final : Bool)
  /-- Call `provider_->SendReplyAndClose (channel, token, buf, length)`. -/
  | SendReplyAndClose (handle : Nat) (token : Int) (buf : Buffer)
deriving DecidableEq, Repr

/-- How a member function ends: it returns a value, or it runs into undefined behaviour
(dereferencing the end iterator or a null pointer). -/
inductive Outcome where
  | returned (b : Bool)
  | undefined
deriving DecidableEq, Repr

/-- The members of `chainy_t` that hold the chains: the heap of stream objects, the map
`streams_` from instrument name to root stream (unique keys, in insertion order here), and the
log of messages applied to payload-cache entries, newest first. -/
structure chainy_t where
  heap : List subscription_stream_t
  streams_ : List (String × Nat)
  payload_cache : List (Nat × RsslRefreshMsg)
deriving DecidableEq, Repr

def kErrorNotFound : String := "Not found in symbol set."

def kErrorInternal : String := "Internal error."

/-- Call `streams_.find (item_name)`: the root stream of the instrument, `none` for
`streams_.end()`. -/
def chainy_t.find (app : chainy_t) (item_name : String) : Option Nat :=
  (app.streams_.find? (fun p => p.1 == item_name)).map Prod.snd

/-- Call `streams_.insert (std::make_pair (instrument, stream))`: no effect when the key is
already present. -/
def chainy_t.insert (app : chainy_t) (instrument : String) (stream : Nat) : chainy_t :=
  match app.find instrument with
  | some _ => app
  | none => { app with streams_ := app.streams_ ++ [(instrument, stream)] }

/-- Call `std::make_shared<subscription_stream_t> ()`: the new object is put at the end of the
heap; returns the pointer to it. -/
def chainy_t.make_shared (app : chainy_t) : Nat × chainy_t :=
  (app.heap.length, { app with heap := app.heap ++ [subscription_stream_t.fresh] })

/-- Call `links.resize (n)` on a vector of `shared_ptr`: truncates, or pads with null
pointers. -/
def resize (links : List (Option Nat)) (n : Nat) : List (Option Nat) :=
  links.take n ++ List.replicate (n - links.length) none

/-- The links of the chain of a root stream, as `OnRequest` walks them. -/
def chainy_t.chain (app : chainy_t) (root : Nat) : List (Option Nat) :=
  match app.heap[root]? with
  | some s => s.links
  | none => []

/-! ## WriteRaw -/

/-- Both overloads of `chainy_t::WriteRaw`: fills in the refresh message from the arguments;
`rssl_encode` answers whether the sequence of RSSL encoder calls (and `rsslValidateMsg`)
succeeds.  Returns the encoded message, `none` for `return false`.  The debug assertion
`DCHECK(!item_name.empty())` is not part of the embedding. -/
def WriteRaw (rssl_encode : Nat → RsslRefreshMsg → Bool) (rwf_version : Nat) (token : Int)
    (service_id : Nat) (item_name : String) (part_number : Nat) (is_complete : Bool)
    (payload : Payload) : Option RsslRefreshMsg :=
  let response : RsslRefreshMsg :=
    { streamId := token, serviceId := service_id, name := item_name, partNum := part_number,
      clear_cache := decide (0 = part_number), refresh_complete := is_complete,
      payload := payload }
  if rssl_encode rwf_version response then some response else none

/-! ## OnRequest -/

/-- The arguments of `OnRequest`. -/
structure Request where
  handle : Nat
  rwf_version : Nat
  token : Int
  service_id : Nat
  item_name : String
  use_attribinfo_in_updates : Bool
deriving DecidableEq, Repr

/-- The collaborators of `OnRequest`.  `rssl_encode` is the RSSL encoder behind `WriteRaw`;
`WriteRawClose` is `provider_t::WriteRawClose`; the send functions are those of `provider_`.
The first argument of `WriteRawClose` and `SendReply` is the number of the loop iteration that
makes the call (`none` for the call made before the loop). -/
structure provider_env where
  rssl_encode : Nat → RsslRefreshMsg → Bool
  WriteRawClose : Option Nat → CloseMsg → Bool
  SendReply : Nat → Buffer → Bool → Bool
  SendReplyAndClose : Buffer → Bool

/-- The close message `OnRequest` asks `WriteRawClose` for. -/
def Request.close (req : Request) (stream_state : RsslStreamState) (status_code : RsslStateCode)
    (status_text : String) : CloseMsg :=
  { rwf_version := req.rwf_version, token := req.token, service_id := req.service_id,
    item_name := req.item_name, use_attribinfo_in_updates := req.use_attribinfo_in_updates,
    stream_state := stream_state, status_code := status_code, status_text := status_text }

/-- The loop `for (auto it = search->second->links.begin(); it != ...end(); ++it)` of
`OnRequest`, from the iterator position whose remaining elements are the list argument, with
the current value of `part_number`.  Returns the messages sent and how the function ends. -/
def OnRequest_loop (env : provider_env) (app : chainy_t) (req : Request) :
    List (Option Nat) → Nat → List Sent × Outcome
  | [], _ => ([], Outcome.returned true)
  | it :: rest, part_number =>
    match it.bind (fun p => app.heap[p]?) with
    | none => ([], Outcome.undefined)
    | some stream =>
      let is_complete := rest.isEmpty
      let buf : Option Buffer :=
        match WriteRaw env.rssl_encode req.rwf_version req.token req.service_id req.item_name
            part_number is_complete (Payload.payload_entry_handle stream.snapshot_handle) with
        | some m => some (Buffer.refresh m)
        | none =>
          let c := req.close RsslStreamState.RSSL_STREAM_CLOSED_RECOVER
            RsslStateCode.RSSL_SC_ERROR kErrorInternal
          if env.WriteRawClose (some part_number) c then some (Buffer.close c) else none
      match buf with
      | none => ([], Outcome.returned false)
      | some b =>
        if env.SendReply part_number b is_complete then
          let r := OnRequest_loop env app req rest (part_number + 1)
          (Sent.SendReply req.handle req.token b is_complete :: r.1, r.2)
        else ([], Outcome.returned false)

/-- Function `chainy_t::OnRequest`.  When the instrument is not found and the close has been
sent, control falls out of the `if` into the loop, whose initialiser dereferences
`search == streams_.end()`. -/
def OnRequest (env : provider_env) (app : chainy_t) (req : Request) : List Sent × Outcome :=
  match app.find req.item_name with
  | none =>
    let c := req.close RsslStreamState.RSSL_STREAM_CLOSED RsslStateCode.RSSL_SC_NOT_FOUND
      kErrorNotFound
    if env.WriteRawClose none c then
      if env.SendReplyAndClose (Buffer.close c) then
        ([Sent.SendReplyAndClose req.handle req.token (Buffer.close c)], Outcome.undefined)
      else ([], Outcome.returned false)
    else ([], Outcome.returned false)
  | some root =>
    match app.heap[root]? with
    | none => ([], Outcome.undefined)
    | some s => OnRequest_loop env app req s.links 0

/-! ## OnSync, OnTrigger, CheckTrigger -/

/-- Assignment through a pointer: the object at `p` is replaced by `s`. -/
def chainy_t.store (app : chainy_t) (p : Nat) (s : subscription_stream_t) : chainy_t :=
  { app with heap := app.heap.set p s }

/-- Function `chainy_t::OnSync`: reads the streams for logging and enables the provider; the
chains are not changed. -/
def OnSync (app : chainy_t) : Bool × chainy_t := (true, app)

/-- Body of the loop `for (auto it : streams_)` of `OnTrigger`; `it.second` always points to an
object, a pointer to nothing leaves the state as it is. -/
def OnTrigger_step (app : chainy_t) (it : String × Nat) : chainy_t :=
  match app.heap[it.2]? with
  | none => app
  | some stream =>
    if stream.payload_entry_handle = 0 then app
    else if stream.snapshot_handle ≠ 0 then app
    else app.store it.2 { stream with snapshot_handle := stream.payload_entry_handle }

/-- Function `chainy_t::OnTrigger`. -/
def OnTrigger (app : chainy_t) : Bool × chainy_t :=
  (true, app.streams_.foldl OnTrigger_step app)

/-- Whether the three calls that set up the field-list decoder succeed. -/
structure rssl_decoder where
  rsslSetDecodeIteratorRWFVersion : Bool
  rsslSetDecodeIteratorBuffer : Bool
  rsslDecodeFieldList : Bool

/-- The constant `target_hour` of `CheckTrigger`. -/
def target_hour : Nat := 11 + 5 - 1

/-- The loop over the field entries in `CheckTrigger`. -/
def CheckTrigger_fields : List RsslFieldEntry → Bool
  | [] => false
  | field_entry :: rest =>
    if field_entry.fieldId = 238 ∨ field_entry.fieldId = 815 then
      if field_entry.rc = RsslRet.RSSL_RET_BLANK_DATA then false
      else if field_entry.rc ≠ RsslRet.RSSL_RET_SUCCESS then false
      else true
    else CheckTrigger_fields rest

/-- Function `chainy_t::CheckTrigger`. -/
def CheckTrigger (dec : rssl_decoder) (fields : List RsslFieldEntry) : Bool :=
  if !dec.rsslSetDecodeIteratorRWFVersion then false
  else if !dec.rsslSetDecodeIteratorBuffer then false
  else if !dec.rsslDecodeFieldList then false
  else CheckTrigger_fields fields

/-! ## OnWrite -/

/-- The collaborators of `OnWrite`.  `CreateItemStream` is `consumer_->CreateItemStream`: `none`
when registration fails, the token of the new stream when it succeeds.
`rsslPayloadEntryCreate` is the handle the cache returns for a new entry (0 on failure);
`rsslDecodeMsg` says whether the three decoder calls on the re-encoded buffer succeed. -/
structure consumer_env where
  decoder : rssl_decoder
  CreateItemStream : String → Option Int
  service_id : Nat
  rssl_encode : Nat → RsslRefreshMsg → Bool
  rsslPayloadEntryCreate : Nat
  rsslDecodeMsg : Bool
  rsslPayloadEntryApply : Bool

/-- Modelled from the spec: the effect of a successful `consumer_t::CreateItemStream` (in
`consumer.cc`, not part of the sources) on the stream object: the link is registered under
`name`, with the token the transport assigned. -/
def chainy_t.register (app : chainy_t) (stream : Nat) (name : String) (token : Int) : chainy_t :=
  match app.heap[stream]? with
  | none => app
  | some s => app.store stream { s with item_name := name, token := token }

/-- The field ids of the two ranges of link values, `case 240: ... case 253:` and
`case 800: ... case 813:`. -/
def is_value_field (fieldId : Nat) : Bool :=
  (240 ≤ fieldId && fieldId ≤ 253) || (800 ≤ fieldId && fieldId ≤ 813)

/-- The field ids of the next-link pointers, `case 238: case 815:`. -/
def is_next_link_field (fieldId : Nat) : Bool :=
  fieldId == 238 || fieldId == 815

/-- The locals of `OnWrite` that its field loop changes, with the state of the chains. -/
structure fields_state where
  v : List String
  is_complete : Bool
  app : chainy_t
deriving DecidableEq, Repr

/-- The `else` branch of the next-link case of `OnWrite` (lines 467-479): a new link is made
and registered; when registration succeeds it is stored at position `1 + stream->index` of the
parent, the vector growing by one when that position is just past its end.  `none` when
`parent` cannot be dereferenced or the position is out of bounds.  The test
`if (!(bool)link_stream) return false` is left out: `std::make_shared` does not return null. -/
def OnWrite_link (env : consumer_env) (parent : Option Nat) (index : Nat) (link_name : String)
    (app : chainy_t) : Option chainy_t :=
  let (link_stream, app1) := app.make_shared
  let app2 := app1.store link_stream
    { subscription_stream_t.fresh with links := [parent], index := 1 + index }
  match env.CreateItemStream link_name with
  | some token =>
    let app3 := app2.register link_stream link_name token
    match parent.bind (fun p => (app3.heap[p]?).map (fun s => (p, s))) with
    | none => none
    | some (p, s) =>
      let links := if 1 + index = s.links.length then resize s.links (1 + (1 + index))
        else s.links
      if 1 + index < links.length then
        some (app3.store p { s with links := links.set (1 + index) (some link_stream) })
      else none
  | none => some app2

/-- The loop over the field entries in `OnWrite` (lines 397-485), for the stream whose parent
is `parent` and whose `index` is `index` (neither is changed by the loop).  The result is
`none` on undefined behaviour; otherwise the flag says whether the loop ran to its end (`true`)
or left the function by `return false`. -/
def OnWrite_fields (env : consumer_env) (parent : Option Nat) (index : Nat) :
    List RsslFieldEntry → fields_state → Option (Bool × fields_state)
  | [], st => some (true, st)
  | field_entry :: rest, st =>
    if is_value_field field_entry.fieldId then
      if field_entry.rc = RsslRet.RSSL_RET_BLANK_DATA ∨ field_entry.rssl_buffer.length = 0 then
        OnWrite_fields env parent index rest st
      else if field_entry.rc ≠ RsslRet.RSSL_RET_SUCCESS then some (false, st)
      else OnWrite_fields env parent index rest { st with v := st.v ++ [field_entry.rssl_buffer] }
    else if is_next_link_field field_entry.fieldId then
      if field_entry.rc = RsslRet.RSSL_RET_BLANK_DATA ∨ field_entry.rssl_buffer.length = 0 then
        OnWrite_fields env parent index rest st
      else if field_entry.rc ≠ RsslRet.RSSL_RET_SUCCESS then some (false, st)
      else if field_entry.rssl_buffer.length = 0 then
        match parent.bind (fun p => (st.app.heap[p]?).map (fun s => (p, s))) with
        | none => none
        | some (p, s) =>
          OnWrite_fields env parent index rest
            { st with is_complete := true,
                      app := st.app.store p { s with links := resize s.links (1 + index) } }
      else
        match OnWrite_link env parent index field_entry.rssl_buffer st.app with
        | none => none
        | some app1 => OnWrite_fields env parent index rest { st with app := app1 }
    else OnWrite_fields env parent index rest st

/-- What `OnWrite` leaves behind: its return value, the state of the chains, and the message
`WriteRaw` encoded into `consumer_rssl_buf_` (when that point was reached and it succeeded). -/
structure OnWrite_result where
  result : Bool
  app : chainy_t
  written : Option RsslRefreshMsg
deriving DecidableEq, Repr

/-- The part of `OnWrite` after the field loop (lines 487-552). -/
def OnWrite_publish (env : consumer_env) (stream : Nat) (parent : Option Nat)
    (rwf_major_version rwf_minor_version : Nat) (st : fields_state) : Option OnWrite_result :=
  match parent.bind (fun p => st.app.heap[p]?), st.app.heap[stream]? with
  | some par, some s =>
    match WriteRaw env.rssl_encode (rwf_major_version * 256 + rwf_minor_version) par.token
        env.service_id par.item_name s.index st.is_complete (Payload.symbol_list st.v) with
    | none => some { result := false, app := st.app, written := none }
    | some msg =>
      let cow_handle := if s.cow_handle = 0 then env.rsslPayloadEntryCreate else s.cow_handle
      if cow_handle = 0 then some { result := false, app := st.app, written := some msg }
      else
        let app1 := st.app.store stream { s with cow_handle := cow_handle }
        if !env.rsslDecodeMsg then some { result := false, app := app1, written := some msg }
        else if !env.rsslPayloadEntryApply then
          some { result := false, app := app1, written := some msg }
        else
          let app2 := { app1 with payload_cache := (cow_handle, msg) :: app1.payload_cache }
          some { result := true,
                 app := app2.store stream
                   { s with cow_handle := cow_handle, snapshot_handle := cow_handle },
                 written := some msg }
  | _, _ => none

/-- Function `chainy_t::OnWrite` for the stream object `stream` and the field entries of the
message.  `none` on undefined behaviour (`stream` or its parent cannot be dereferenced, or a
position outside the link vector is written). -/
def OnWrite (env : consumer_env) (app : chainy_t) (stream : Nat)
    (rwf_major_version rwf_minor_version : Nat) (fields : List RsslFieldEntry) :
    Option OnWrite_result :=
  match app.heap[stream]? with
  | none => none
  | some s =>
    match s.links with
    | [] => none
    | parent :: _ =>
      if !env.decoder.rsslSetDecodeIteratorRWFVersion then
        some { result := false, app := app, written := none }
      else if !env.decoder.rsslSetDecodeIteratorBuffer then
        some { result := false, app := app, written := none }
      else if !env.decoder.rsslDecodeFieldList then
        some { result := false, app := app, written := none }
      else
        match OnWrite_fields env parent s.index fields
            { v := [], is_complete := false, app := app } with
        | none => none
        | some (false, st) => some { result := false, app := st.app, written := none }
        | some (true, st) =>
          OnWrite_publish env stream parent rwf_major_version rwf_minor_version st

/-! ## Initialize -/

/-- The state before `Initialize`: no streams. -/
def chainy_t.empty : chainy_t := { heap := [], streams_ := [], payload_cache := [] }

/-- The loop `for (const auto& instrument : instruments)` of `Initialize` (lines 179-191): one
root stream per non-empty line, linked to itself at position 0, kept in `streams_` when its
registration succeeds.  The test `if (!(bool)stream) return false` is left out: `std::make_shared`
does not return null. -/
def Initialize_streams (CreateItemStream : String → Option Int) :
    List String → chainy_t → chainy_t
  | [], app => app
  | instrument :: rest, app =>
    if instrument.isEmpty then Initialize_streams CreateItemStream rest app
    else
      let (stream, app1) := app.make_shared
      let app2 := app1.store stream { subscription_stream_t.fresh with links := [some stream] }
      match CreateItemStream instrument with
      | some token =>
        Initialize_streams CreateItemStream rest
          ((app2.register stream instrument token).insert instrument stream)
      | none => Initialize_streams CreateItemStream rest app2

/-! ## Sequences of operations -/

/-- The callbacks through which the chains are reached. -/
inductive Op where
  | OnWrite (env : consumer_env) (stream : Nat) (rwf_major_version rwf_minor_version : Nat)
      (fields : List RsslFieldEntry)
  | OnTrigger
  | OnSync
  | OnRequest (env : provider_env) (req : Request)

/-- The state after one callback; `none` when the callback runs into undefined behaviour. -/
def step (app : chainy_t) : Op → Option chainy_t
  | Op.OnWrite env stream major minor fields =>
    (OnWrite env app stream major minor fields).map (fun r => r.app)
  | Op.OnTrigger => some (OnTrigger app).2
  | Op.OnSync => some (OnSync app).2
  | Op.OnRequest env req =>
    match (OnRequest env app req).2 with
    | Outcome.returned _ => some app
    | Outcome.undefined => none

/-- The state after a sequence of callbacks. -/
def run (app : chainy_t) : List Op → Option chainy_t
  | [] => some app
  | op :: ops => (step app op).bind (fun app1 => run app1 ops)

/-! ## Auxiliary definitions used in the statements -/

/-- The snapshot handle `OnRequest` reads through the link pointer `l`. -/
def chainy_t.snapshot_of (app : chainy_t) (l : Option Nat) : Nat :=
  match l.bind (fun p => app.heap[p]?) with
  | some stream => stream.snapshot_handle
  | none => 0

/-- Part `i` of a response of `k` parts to the request `req`, for the link `l`: a refresh with
part number `i` carrying the snapshot of the link, complete and final exactly when it is part
`k - 1`. -/
def response_part (app : chainy_t) (req : Request) (k : Nat) (i : Nat) (l : Option Nat) : Sent :=
  Sent.SendReply req.handle req.token
    (Buffer.refresh
      { streamId := req.token, serviceId := req.service_id, name := req.item_name,
        partNum := i, clear_cache := decide (0 = i), refresh_complete := decide (i + 1 = k),
        payload := Payload.payload_entry_handle (app.snapshot_of l) })
    (decide (i + 1 = k))

/-- Provider collaborators that never fail. -/
def provider_env.ok : provider_env :=
  { rssl_encode := fun _ _ => true, WriteRawClose := fun _ _ => true,
    SendReply := fun _ _ _ => true, SendReplyAndClose := fun _ => true }

/-- Consumer collaborators that never fail; every stream gets token 7 and every new cache
entry the handle 100. -/
def consumer_env.ok : consumer_env :=
  { decoder := { rsslSetDecodeIteratorRWFVersion := true, rsslSetDecodeIteratorBuffer := true,
                 rsslDecodeFieldList := true },
    CreateItemStream := fun _ => some 7, service_id := 1, rssl_encode := fun _ _ => true,
    rsslPayloadEntryCreate := 100, rsslDecodeMsg := true, rsslPayloadEntryApply := true }

/-- The store with the single instrument `FOO`, whose chain is `FOO → FOO.1 → FOO.2`, every
link having been written once. -/
def FOO_store : chainy_t :=
  { heap :=
      [ { item_name := "FOO", token := 7, index := 0, links := [some 0, some 1, some 2],
          payload_entry_handle := 0, cow_handle := 100, snapshot_handle := 100 },
        { item_name := "FOO.1", token := 8, index := 1, links := [some 0],
          payload_entry_handle := 0, cow_handle := 101, snapshot_handle := 101 },
        { item_name := "FOO.2", token := 9, index := 2, links := [some 0],
          payload_entry_handle := 0, cow_handle := 102, snapshot_handle := 102 } ],
    streams_ := [("FOO", 0)],
    payload_cache := [] }

/-- A request for `item_name` on channel 9 with token 5. -/
def request_for (item_name : String) : Request :=
  { handle := 9, rwf_version := 14, token := 5, service_id := 1, item_name := item_name,
    use_attribinfo_in_updates := true }

/-- A store with two instruments.  `A` has the chain `A → A.1`; neither link has a snapshot
yet, both have a payload entry, and `A.1` also has a copy-on-write entry (an `OnWrite` whose
cache apply failed).  `B` is a single link that was written before. -/
def trigger_store : chainy_t :=
  { heap :=
      [ { item_name := "A", token := 7, index := 0, links := [some 0, some 2],
          payload_entry_handle := 50, cow_handle := 0, snapshot_handle := 0 },
        { item_name := "B", token := 8, index := 0, links := [some 1],
          payload_entry_handle := 51, cow_handle := 60, snapshot_handle := 60 },
        { item_name := "A.1", token := 9, index := 1, links := [some 0],
          payload_entry_handle := 52, cow_handle := 70, snapshot_handle := 0 } ],
    streams_ := [("A", 0), ("B", 1)],
    payload_cache := [] }

/-- A stream the scan has nothing to do for: no payload entry, or a snapshot already. -/
def settled (app : chainy_t) (p : Nat) : Prop :=
  ∀ s, app.heap[p]? = some s → s.payload_entry_handle = 0 ∨ s.snapshot_handle ≠ 0

/-- A designated field (a link value or a next-link pointer) on which `rsslDecodeBuffer` does
not fail: it reports blank, or leaves an empty buffer, or succeeds.  Fields with other ids are
never decoded. -/
def decodes (e : RsslFieldEntry) : Prop :=
  (is_value_field e.fieldId = true ∨ is_next_link_field e.fieldId = true) →
    (e.rc = RsslRet.RSSL_RET_BLANK_DATA ∨ e.rssl_buffer.length = 0 ∨
      e.rc = RsslRet.RSSL_RET_SUCCESS)

instance (e : RsslFieldEntry) : Decidable (decodes e) := by
  unfold decodes; infer_instance

/-- The entries of a field list with id `238` or `815` whose value is decoded and is neither
blank nor empty: the next-link names the update carries, in encounter order. -/
def next_links (fields : List RsslFieldEntry) : List String :=
  (fields.filter (fun e => is_next_link_field e.fieldId &&
    !(decide (e.rc = RsslRet.RSSL_RET_BLANK_DATA) || decide (e.rssl_buffer.length = 0)))).map
    (fun e => e.rssl_buffer)

/-- The entries of a field list with id in `240..253` or `800..813` whose value is decoded and
is neither blank nor empty, in encounter order. -/
def link_values (fields : List RsslFieldEntry) : List String :=
  (fields.filter (fun e => is_value_field e.fieldId &&
    !(decide (e.rc = RsslRet.RSSL_RET_BLANK_DATA) || decide (e.rssl_buffer.length = 0)))).map
    (fun e => e.rssl_buffer)

/-- The link creations of one `OnWrite`, one after the other. -/
def link_all (env : consumer_env) (parent : Option Nat) (index : Nat) :
    List String → chainy_t → Option chainy_t
  | [], app => some app
  | name :: names, app =>
    (OnWrite_link env parent index name app).bind (link_all env parent index names)

/-- The object of a link made by `OnWrite` for the chain of `root` at position `index` and
registered under `name` with `token`. -/
def new_link (root index : Nat) (name : String) (token : Int) : subscription_stream_t :=
  { subscription_stream_t.fresh with
    links := [some root], index := index, item_name := name, token := token }

/-- The link vector after the link `link_stream` has been stored at position `index`. -/
def put_link (links : List (Option Nat)) (index : Nat) (link_stream : Nat) : List (Option Nat) :=
  if index = links.length then links ++ [some link_stream]
  else links.set index (some link_stream)

/-- Every object of `app` is still there in `app1`, changed at most in its `links`. -/
def links_changed (app app1 : chainy_t) : Prop :=
  ∀ (l : Nat) (s : subscription_stream_t), app.heap[l]? = some s →
    ∃ s1, app1.heap[l]? = some s1 ∧ s = { s1 with links := s.links }

/-- Every object of `app` that has a snapshot still has one in `app1`. -/
def snapshots_kept (app app1 : chainy_t) : Prop :=
  ∀ (l : Nat) (s : subscription_stream_t), app.heap[l]? = some s → s.snapshot_handle ≠ 0 →
    ∃ s1, app1.heap[l]? = some s1 ∧ s1.snapshot_handle ≠ 0

/-- A next-link field (id 238) whose value decodes to `name`. -/
def next_link (name : String) : RsslFieldEntry :=
  { fieldId := 238, rc := RsslRet.RSSL_RET_SUCCESS, rssl_buffer := name }

/-- A next-link field (id 238) that decodes as blank. -/
def blank_next_link : RsslFieldEntry :=
  { fieldId := 238, rc := RsslRet.RSSL_RET_BLANK_DATA, rssl_buffer := "" }

/-- The most recently discovered link of the chain of `root`: the last element of its link
vector. -/
def chainy_t.last_link (app : chainy_t) (root : Nat) : Option Nat :=
  (app.chain root).getLast?.join

/-- A sequence of updates delivered along the chain of `root`: each update, with the
collaborators it meets, is given to `OnWrite` for the link that is last in the chain when the
update arrives.  `none` when the chain has no last link or an `OnWrite` is undefined. -/
def deliver_along (root major minor : Nat) :
    chainy_t → List (consumer_env × List RsslFieldEntry) → Option chainy_t
  | app, [] => some app
  | app, u :: us =>
    match app.last_link root with
    | none => none
    | some stream =>
      match OnWrite u.1 app stream major minor u.2 with
      | none => none
      | some r => deliver_along root major minor r.app us

/-- A link-discovery update that is processed: the decoder set-up succeeds, no designated field
fails to decode, and every registration succeeds. -/
def delivered (u : consumer_env × List RsslFieldEntry) : Prop :=
  u.1.decoder.rsslSetDecodeIteratorRWFVersion = true ∧
  u.1.decoder.rsslSetDecodeIteratorBuffer = true ∧
  u.1.decoder.rsslDecodeFieldList = true ∧
  (∀ e ∈ u.2, decodes e) ∧
  (∀ name, ∃ token, u.1.CreateItemStream name = some token)

/-- The chain of `root` has `1 + n` links, and its last link has index `n` and `root` as its
parent. -/
def chain_tip (app : chainy_t) (root n : Nat) : Prop :=
  ∃ (r : subscription_stream_t) (last : Nat) (s : subscription_stream_t),
    app.heap[root]? = some r ∧ r.links.length = 1 + n ∧ r.links[n]? = some (some last) ∧
    app.heap[last]? = some s ∧ s.index = n ∧ s.links.head? = some (some root)

/-- Three updates along a chain: the root names `A` as its next link, the link `A` names `A`
again, and the link made for that reports a blank next link. -/
def repeated_updates : List (consumer_env × List RsslFieldEntry) :=
  [(consumer_env.ok, [next_link "A"]), (consumer_env.ok, [next_link "A"]),
   (consumer_env.ok, [blank_next_link])]

/-- The first timestamp field (id 238 or 815) of a field list, if it has one. -/
def first_timestamp (fields : List RsslFieldEntry) : Option RsslFieldEntry :=
  fields.find? (fun e => decide (e.fieldId = 238 ∨ e.fieldId = 815))

/-- The payload of an update in the words of the specification: the values, in encounter order,
of the entries whose field id lies in `240..253` or in `800..813` and whose value is neither
blank nor of length zero. -/
def designated_values (fields : List RsslFieldEntry) : List String :=
  (fields.filter (fun e =>
    decide (((240 ≤ e.fieldId ∧ e.fieldId ≤ 253) ∨ (800 ≤ e.fieldId ∧ e.fieldId ≤ 813)) ∧
      e.rc ≠ RsslRet.RSSL_RET_BLANK_DATA ∧ e.rssl_buffer.length ≠ 0))).map
    (fun e => e.rssl_buffer)

/-- A blank-terminator update: it has a next-link field, and every next-link field it has is
blank or of length zero. -/
def blank_terminator (fields : List RsslFieldEntry) : Prop :=
  (∃ e ∈ fields, is_next_link_field e.fieldId = true) ∧
  ∀ e ∈ fields, is_next_link_field e.fieldId = true →
    (e.rc = RsslRet.RSSL_RET_BLANK_DATA ∨ e.rssl_buffer.length = 0)

/-- The first parts of a response of `k` parts: one refresh per link of `pre`, numbered from 0. -/
def parts_before (app : chainy_t) (req : Request) (k : Nat) (pre : List (Option Nat)) :
    List Sent :=
  pre.enum.map (fun il => response_part app req k il.1 il.2)

/-- The close `OnRequest` falls back to when a part cannot be encoded: closed, recoverable. -/
def Request.close_recover (req : Request) : CloseMsg :=
  req.close RsslStreamState.RSSL_STREAM_CLOSED_RECOVER RsslStateCode.RSSL_SC_ERROR kErrorInternal

/-- Provider collaborators that fail in one place only: the refresh with part number `k`
cannot be encoded. -/
def provider_env.encode_fails_at (k : Nat) : provider_env :=
  { rssl_encode := fun _ m => m.partNum != k, WriteRawClose := fun _ _ => true,
    SendReply := fun _ _ _ => true, SendReplyAndClose := fun _ => true }

/-! ## Start-up: Initialize, Start, Run -/

/-- How the initialisation of a mandatory collaborator ends: it succeeds, it reports failure by
its return value, or it throws a `std::exception`. -/
inductive init_result where
  | ok
  | failed
  | threw
deriving DecidableEq, Repr

/-- The collaborators of `Initialize`: `upa_->Initialize()`, `consumer_->Initialize()`,
`provider_->Initialize (...)` and `consumer_->CreateItemStream`.  The constructors are taken
to succeed (`new` does not return null). -/
structure startup_env where
  upa_Initialize : init_result
  consumer_Initialize : init_result
  provider_Initialize : init_result
  CreateItemStream : String → Option Int

/-- Function `chainy_t::Initialize`.  `instruments` is the vector of lines that
`chromium::SplitString (contents, '\n', &instruments)` fills from the symbol file (empty when
there is no file).  A collaborator that reports failure leads to `cleanup` and `return false`;
an exception is caught by the `catch` clause, after which the function returns true. -/
def Initialize (env : startup_env) (instruments : List String) : Bool × chainy_t :=
  match env.upa_Initialize with
  | init_result.failed => (false, chainy_t.empty)
  | init_result.threw => (true, chainy_t.empty)
  | init_result.ok =>
    match env.consumer_Initialize with
    | init_result.failed => (false, chainy_t.empty)
    | init_result.threw => (true, chainy_t.empty)
    | init_result.ok =>
      match env.provider_Initialize with
      | init_result.failed => (false, chainy_t.empty)
      | init_result.threw => (true, chainy_t.empty)
      | init_result.ok =>
        (true, Initialize_streams env.CreateItemStream instruments chainy_t.empty)

/-- What `Start` leaves behind: its return value, whether `consumer_thread_` and
`provider_thread_` were spawned, and the chains. -/
structure Start_result where
  result : Bool
  consumer_thread : Bool
  provider_thread : Bool
  app : chainy_t
deriving DecidableEq, Repr

/-- Function `chainy_t::Start`: `if (!shutting_down_ && Initialize()) { ...spawn... } return true;`
(`Initialize` is not called when `shutting_down_` is set). -/
def Start (shutting_down_ : Bool) (env : startup_env) (instruments : List String) :
    Start_result :=
  if shutting_down_ then
    { result := true, consumer_thread := false, provider_thread := false,
      app := chainy_t.empty }
  else if (Initialize env instruments).1 then
    { result := true, consumer_thread := true, provider_thread := true,
      app := (Initialize env instruments).2 }
  else
    { result := true, consumer_thread := false, provider_thread := false,
      app := (Initialize env instruments).2 }

def EXIT_SUCCESS : Int := 0

def EXIT_FAILURE : Int := 1

/-- How `Run` goes on after `Start`: it enters its wait for `provider_shutdown_` and
`consumer_shutdown_` (which only the two spawned threads set, and after which it returns
`EXIT_SUCCESS`), or it returns at once. -/
inductive Run_result where
  | waits (consumer_thread provider_thread : Bool)
  | returned (rc : Int)
deriving DecidableEq, Repr

/-- Function `chainy_t::Run`. -/
def Run (shutting_down_ : Bool) (env : startup_env) (instruments : List String) : Run_result :=
  let started := Start shutting_down_ env instruments
  if started.result then Run_result.waits started.consumer_thread started.provider_thread
  else Run_result.returned EXIT_FAILURE

/-- Collaborators of which the UPA context fails to initialise. -/
def startup_env.upa_fails : startup_env :=
  { upa_Initialize := init_result.failed, consumer_Initialize := init_result.ok,
    provider_Initialize := init_result.ok, CreateItemStream := fun _ => some 7 }

/-- Collaborators that all initialise; the consumer registers every name but `BAD`. -/
def startup_env.ok : startup_env :=
  { upa_Initialize := init_result.ok, consumer_Initialize := init_result.ok,
    provider_Initialize := init_result.ok,
    CreateItemStream := fun name => if name = "BAD" then none else some 7 }

/-- The keys of `streams_`. -/
def chainy_t.keys (app : chainy_t) : List String := app.streams_.map Prod.fst

/-- A root stream as `Initialize` makes it: the only link of its own chain, at position 0. -/
def root_only (app : chainy_t) (it : String × Nat) : Prop :=
  ∃ s, app.heap[it.2]? = some s ∧ s.links = [some it.2] ∧ s.index = 0 ∧ s.item_name = it.1

/-- Modelled from the spec: a stream the consumer knows and delivers updates for, that is one
for which `CreateItemStream` succeeded.  `consumer.cc` is not part of the sources; in the
embedding `chainy_t.register` is the only place that gives a stream its name, and the names it
is called with (a non-empty line of the symbol list, a non-empty next-link value) are never
empty, so these are the streams with a name. -/
def registered (app : chainy_t) (p : Nat) : Prop :=
  ∃ s, app.heap[p]? = some s ∧ s.item_name ≠ ""

/-- The chain of `root` has no gaps: `root` is its own first link, and every position `i` of
the link vector holds a pointer to a stream whose index is `i`. -/
def no_gaps (app : chainy_t) (root : Nat) : Prop :=
  ∃ r, app.heap[root]? = some r ∧ r.links.head? = some (some root) ∧
    ∀ i, i < r.links.length →
      ∃ q t, r.links[i]? = some (some q) ∧ app.heap[q]? = some t ∧ t.index = i

/-- The invariant of the chains: every stream points to a root whose chain has no gaps, the
position after a registered stream is at most the length of that chain, and every stream in
`streams_` is a registered root. -/
def valid (app : chainy_t) : Prop :=
  (∀ (p : Nat) (s : subscription_stream_t), app.heap[p]? = some s →
    ∃ root r, s.links.head? = some (some root) ∧ app.heap[root]? = some r ∧
      no_gaps app root ∧ (s.item_name ≠ "" → 1 + s.index ≤ r.links.length)) ∧
  (∀ it ∈ app.streams_, ∃ s, app.heap[it.2]? = some s ∧
    s.links.head? = some (some it.2) ∧ s.item_name ≠ "")

/-- The streams of `app1` are those of `app`, with the same names, indices and links. -/
def same_frame (app app1 : chainy_t) : Prop :=
  app1.streams_ = app.streams_ ∧ app1.heap.length = app.heap.length ∧
  ∀ (p : Nat) (s : subscription_stream_t), app.heap[p]? = some s →
    ∃ s1, app1.heap[p]? = some s1 ∧ s1.item_name = s.item_name ∧ s1.index = s.index ∧
      s1.links = s.links

/-! ## Theorems -/

/-! ### OnRequest -/

theorem OnRequest_loop_all_ok (env : provider_env) (app : chainy_t) (req : Request)
    (henc : ∀ v m, env.rssl_encode v m = true)
    (hsend : ∀ n b f, env.SendReply n b f = true) :
    ∀ (links : List (Option Nat)) (n : Nat),
      (∀ l ∈ links, ∃ p st, l = some p ∧ app.heap[p]? = some st) →
      OnRequest_loop env app req links n =
        ((links.enumFrom n).map (fun il => response_part app req (n + links.length) il.1 il.2),
          Outcome.returned true) := by
  intro links
  induction links with
  | nil => intro n _; simp [OnRequest_loop]
  | cons l rest ih =>
    intro n hl
    obtain ⟨p, st, hp, hst⟩ := hl l (List.mem_cons_self _ _)
    have hrest : ∀ l ∈ rest, ∃ p st, l = some p ∧ app.heap[p]? = some st :=
      fun l hl2 => hl l (List.mem_cons_of_mem _ hl2)
    have ih2 := ih (n + 1) hrest
    subst hp
    have hcomp : rest.isEmpty = decide (n + 1 = n + (rest.length + 1)) := by
      cases rest <;> simp
    simp only [OnRequest_loop, Option.bind_some, hst, WriteRaw, henc, hsend, if_true, ih2,
      List.enumFrom_cons, List.map_cons, List.length_cons, response_part, chainy_t.snapshot_of,
      hcomp]
    have e : n + 1 + rest.length = n + (rest.length + 1) := by omega
    simp [e, hst]

/-- C1: for a known instrument whose chain has `k ≥ 1` links, every position holding a link,
when every part encodes and every send succeeds, `OnRequest` sends exactly `k` messages with
`SendReply`, one per link in chain order: message `i` is a refresh with part number `i` that
carries the snapshot of link `i`, and its refresh-complete flag and its final flag are true
exactly for `i = k - 1`; `OnRequest` returns true. -/
theorem OnRequest_known_parts (env : provider_env) (app : chainy_t) (req : Request) (root : Nat)
    (s : subscription_stream_t)
    (hfind : app.find req.item_name = some root)
    (hroot : app.heap[root]? = some s)
    (hk : 1 ≤ s.links.length)
    (hlinks : ∀ l ∈ s.links, ∃ p st, l = some p ∧ app.heap[p]? = some st)
    (henc : ∀ v m, env.rssl_encode v m = true)
    (hsend : ∀ n b f, env.SendReply n b f = true) :
    OnRequest env app req =
      (s.links.enum.map (fun il => response_part app req s.links.length il.1 il.2),
        Outcome.returned true) ∧
    (OnRequest env app req).1.length = s.links.length ∧
    ∀ i, i < s.links.length →
      ∃ h, (OnRequest env app req).1[i]? = some (Sent.SendReply req.handle req.token
        (Buffer.refresh
          { streamId := req.token, serviceId := req.service_id, name := req.item_name,
            partNum := i, clear_cache := decide (0 = i),
            refresh_complete := decide (i = s.links.length - 1),
            payload := Payload.payload_entry_handle h })
        (decide (i = s.links.length - 1))) := by
  have h := OnRequest_loop_all_ok env app req henc hsend s.links 0 hlinks
  have hmain : OnRequest env app req =
      (s.links.enum.map (fun il => response_part app req s.links.length il.1 il.2),
        Outcome.returned true) := by
    simp only [OnRequest, hfind, hroot, h, List.enum, Nat.zero_add]
  refine ⟨hmain, ?_, ?_⟩
  · simp [hmain]
  · intro i hi
    refine ⟨app.snapshot_of (s.links[i]), ?_⟩
    have e : (i + 1 = s.links.length) = (i = s.links.length - 1) := by
      apply propext; omega
    simp [hmain, List.getElem?_map, List.enum, hi, response_part, e]

/-- Witness for C1: the chain `FOO → FOO.1 → FOO.2` gives three parts numbered 0, 1, 2, of
which only part 2 is complete and final. -/
theorem OnRequest_known_parts_witness :
    OnRequest provider_env.ok FOO_store (request_for "FOO") =
      ([ Sent.SendReply 9 5 (Buffer.refresh
            { streamId := 5, serviceId := 1, name := "FOO", partNum := 0, clear_cache := true,
              refresh_complete := false, payload := Payload.payload_entry_handle 100 }) false,
         Sent.SendReply 9 5 (Buffer.refresh
            { streamId := 5, serviceId := 1, name := "FOO", partNum := 1, clear_cache := false,
              refresh_complete := false, payload := Payload.payload_entry_handle 101 }) false,
         Sent.SendReply 9 5 (Buffer.refresh
            { streamId := 5, serviceId := 1, name := "FOO", partNum := 2, clear_cache := false,
              refresh_complete := true, payload := Payload.payload_entry_handle 102 }) true ],
        Outcome.returned true) :=
  (OnRequest_known_parts provider_env.ok FOO_store (request_for "FOO") 0
    { item_name := "FOO", token := 7, index := 0, links := [some 0, some 1, some 2],
      payload_entry_handle := 0, cow_handle := 100, snapshot_handle := 100 }
    (by decide) rfl (by decide)
    (by
      intro l hl
      simp only [List.mem_cons, List.mem_singleton, List.not_mem_nil, or_false] at hl
      rcases hl with rfl | rfl | rfl
      · exact ⟨0, _, rfl, rfl⟩
      · exact ⟨1, _, rfl, rfl⟩
      · exact ⟨2, _, rfl, rfl⟩)
    (fun _ _ => rfl) (fun _ _ _ => rfl)).1

/-- C2: a request for a name that is not a key of `streams_`, when the close encodes and is
sent: exactly one message is sent, the close with state closed and code not-found carrying the
attribute-info preference of the request, by `SendReplyAndClose`; but `OnRequest` does not
return after it: control goes on to the loop over `search->second->links` with
`search == streams_.end()`, which is undefined behaviour. -/
theorem OnRequest_not_found_falls_through (env : provider_env) (app : chainy_t) (req : Request)
    (hfind : app.find req.item_name = none)
    (henc : ∀ c, env.WriteRawClose none c = true)
    (hsend : ∀ b, env.SendReplyAndClose b = true) :
    OnRequest env app req =
      ([Sent.SendReplyAndClose req.handle req.token
          (Buffer.close
            { rwf_version := req.rwf_version, token := req.token, service_id := req.service_id,
              item_name := req.item_name,
              use_attribinfo_in_updates := req.use_attribinfo_in_updates,
              stream_state := RsslStreamState.RSSL_STREAM_CLOSED,
              status_code := RsslStateCode.RSSL_SC_NOT_FOUND,
              status_text := kErrorNotFound })],
        Outcome.undefined) := by
  simp [OnRequest, hfind, henc, hsend, Request.close]

/-- Witness for C2: the request for `BAR` on the store that only knows `FOO`. -/
theorem OnRequest_not_found_falls_through_witness :
    FOO_store.find "BAR" = none ∧
    OnRequest provider_env.ok FOO_store (request_for "BAR") =
      ([Sent.SendReplyAndClose 9 5
          (Buffer.close
            { rwf_version := 14, token := 5, service_id := 1, item_name := "BAR",
              use_attribinfo_in_updates := true,
              stream_state := RsslStreamState.RSSL_STREAM_CLOSED,
              status_code := RsslStateCode.RSSL_SC_NOT_FOUND,
              status_text := "Not found in symbol set." })],
        Outcome.undefined) :=
  ⟨by decide,
    OnRequest_not_found_falls_through provider_env.ok FOO_store (request_for "BAR") (by decide)
      (fun _ => rfl) (fun _ => rfl)⟩

/-! ### Heap lemmas -/

theorem store_heap_self (app : chainy_t) (p : Nat) (s : subscription_stream_t)
    (hp : p < app.heap.length) : (app.store p s).heap[p]? = some s := by
  simp [chainy_t.store, hp]

theorem store_heap_ne (app : chainy_t) (p q : Nat) (s : subscription_stream_t) (h : p ≠ q) :
    (app.store p s).heap[q]? = app.heap[q]? := by
  simp [chainy_t.store, h]

theorem lt_of_heap_some {app : chainy_t} {p : Nat} {s : subscription_stream_t}
    (h : app.heap[p]? = some s) : p < app.heap.length := by
  rcases List.getElem?_eq_some.mp h with ⟨hp, _⟩
  exact hp

/-! ### OnTrigger -/

theorem OnTrigger_step_streams (app : chainy_t) (it : String × Nat) :
    (OnTrigger_step app it).streams_ = app.streams_ := by
  unfold OnTrigger_step
  split
  · rfl
  · split
    · rfl
    · split <;> rfl

theorem OnTrigger_foldl_streams (l : List (String × Nat)) :
    ∀ app : chainy_t, (l.foldl OnTrigger_step app).streams_ = app.streams_ := by
  induction l with
  | nil => intro app; rfl
  | cons x xs ih => intro app; rw [List.foldl_cons, ih, OnTrigger_step_streams]

/-- One step of the scan leaves every object with a non-null snapshot as it is. -/
theorem OnTrigger_step_keeps (app : chainy_t) (it : String × Nat) (l : Nat)
    (s : subscription_stream_t) (hs : app.heap[l]? = some s) (hn : s.snapshot_handle ≠ 0) :
    (OnTrigger_step app it).heap[l]? = some s := by
  unfold OnTrigger_step
  split
  · exact hs
  · rename_i stream hstream
    split
    · exact hs
    · split
      · exact hs
      · rename_i h0
        have hne : it.2 ≠ l := by
          intro e
          rw [e, hs] at hstream
          cases hstream
          exact h0 hn
        rw [store_heap_ne _ _ _ _ hne]
        exact hs

theorem OnTrigger_foldl_keeps (xs : List (String × Nat)) :
    ∀ (app : chainy_t) (l : Nat) (s : subscription_stream_t), app.heap[l]? = some s →
      s.snapshot_handle ≠ 0 → (xs.foldl OnTrigger_step app).heap[l]? = some s := by
  induction xs with
  | nil => intro app l s hs _; exact hs
  | cons x xs ih =>
    intro app l s hs hn
    rw [List.foldl_cons]
    exact ih _ l s (OnTrigger_step_keeps app x l s hs hn) hn

/-- One step of the scan leaves every object other than the one it visits as it is. -/
theorem OnTrigger_step_other (app : chainy_t) (it : String × Nat) (l : Nat) (hne : it.2 ≠ l) :
    (OnTrigger_step app it).heap[l]? = app.heap[l]? := by
  unfold OnTrigger_step
  split
  · rfl
  · split
    · rfl
    · split
      · rfl
      · exact store_heap_ne _ _ _ _ hne

theorem OnTrigger_foldl_other (xs : List (String × Nat)) :
    ∀ (app : chainy_t) (l : Nat), (∀ it ∈ xs, it.2 ≠ l) →
      (xs.foldl OnTrigger_step app).heap[l]? = app.heap[l]? := by
  induction xs with
  | nil => intro app l _; rfl
  | cons x xs ih =>
    intro app l h
    rw [List.foldl_cons, ih _ l (fun it hit => h it (List.mem_cons_of_mem _ hit)),
      OnTrigger_step_other app x l (h x (List.mem_cons_self _ _))]

theorem OnTrigger_step_settled_id (app : chainy_t) (it : String × Nat)
    (h : settled app it.2) : OnTrigger_step app it = app := by
  unfold OnTrigger_step
  split
  · rfl
  · rename_i stream hstream
    rcases h stream hstream with h0 | h1
    · simp [h0]
    · simp [h1]

theorem OnTrigger_step_settles (app : chainy_t) (it : String × Nat) :
    settled (OnTrigger_step app it) it.2 := by
  intro s hs
  unfold OnTrigger_step at hs
  split at hs
  · rename_i hnone; rw [hnone] at hs; cases hs
  · rename_i stream hstream
    split at hs
    · rename_i h0; rw [hstream] at hs; cases hs; exact Or.inl h0
    · rename_i h0
      split at hs
      · rename_i h1; rw [hstream] at hs; cases hs; exact Or.inr h1
      · rw [store_heap_self _ _ _ (lt_of_heap_some hstream)] at hs
        cases hs
        exact Or.inr h0

theorem OnTrigger_step_settled_mono (app : chainy_t) (it : String × Nat) (p : Nat)
    (h : settled app p) : settled (OnTrigger_step app it) p := by
  by_cases e : it.2 = p
  · rw [← e]; exact OnTrigger_step_settles app it
  · intro s hs
    rw [OnTrigger_step_other app it p e] at hs
    exact h s hs

theorem OnTrigger_foldl_settled_mono (xs : List (String × Nat)) :
    ∀ (app : chainy_t) (p : Nat), settled app p → settled (xs.foldl OnTrigger_step app) p := by
  induction xs with
  | nil => intro app p h; exact h
  | cons x xs ih =>
    intro app p h
    rw [List.foldl_cons]
    exact ih _ p (OnTrigger_step_settled_mono app x p h)

theorem OnTrigger_foldl_settles (xs : List (String × Nat)) :
    ∀ (app : chainy_t), ∀ it ∈ xs, settled (xs.foldl OnTrigger_step app) it.2 := by
  induction xs with
  | nil => intro app it hit; cases hit
  | cons x xs ih =>
    intro app it hit
    rw [List.foldl_cons]
    rcases List.mem_cons.mp hit with e | hmem
    · subst e
      exact OnTrigger_foldl_settled_mono xs _ _ (OnTrigger_step_settles app it)
    · exact ih _ it hmem

theorem OnTrigger_foldl_settled_id (xs : List (String × Nat)) :
    ∀ (app : chainy_t), (∀ it ∈ xs, settled app it.2) → xs.foldl OnTrigger_step app = app := by
  induction xs with
  | nil => intro app _; rfl
  | cons x xs ih =>
    intro app h
    rw [List.foldl_cons, OnTrigger_step_settled_id app x (h x (List.mem_cons_self _ _))]
    exact ih app (fun it hit => h it (List.mem_cons_of_mem _ hit))

/-- C8: `OnTrigger` leaves every link whose snapshot handle is already non-null exactly as it
is, and running `OnTrigger` a second time changes nothing: the state (and so every snapshot
handle) after two passes is the state after one. -/
theorem OnTrigger_at_most_once (app : chainy_t) :
    (∀ (l : Nat) (s : subscription_stream_t), app.heap[l]? = some s → s.snapshot_handle ≠ 0 →
      (OnTrigger app).2.heap[l]? = some s) ∧
    OnTrigger (OnTrigger app).2 = OnTrigger app := by
  constructor
  · intro l s hs hn
    exact OnTrigger_foldl_keeps app.streams_ app l s hs hn
  · have hst : (OnTrigger app).2.streams_ = app.streams_ := OnTrigger_foldl_streams _ app
    have h : (OnTrigger (OnTrigger app).2).2 = (OnTrigger app).2 := by
      show ((OnTrigger app).2.streams_).foldl OnTrigger_step (OnTrigger app).2 = (OnTrigger app).2
      rw [hst]
      exact OnTrigger_foldl_settled_id app.streams_ _ (OnTrigger_foldl_settles app.streams_ app)
    exact Prod.ext rfl h



/-- Witness for C8 on a store in which `B` already has a snapshot. -/
theorem OnTrigger_at_most_once_witness :
    (OnTrigger trigger_store).2.heap[1]? =
      some { item_name := "B", token := 8, index := 0, links := [some 1],
             payload_entry_handle := 51, cow_handle := 60, snapshot_handle := 60 } ∧
    OnTrigger (OnTrigger trigger_store).2 = OnTrigger trigger_store :=
  ⟨(OnTrigger_at_most_once trigger_store).1 1 _ rfl (by decide),
    (OnTrigger_at_most_once trigger_store).2⟩

theorem OnTrigger_foldl_captures (xs : List (String × Nat)) :
    ∀ (app : chainy_t) (r : Nat) (s : subscription_stream_t), (∃ it ∈ xs, it.2 = r) →
      app.heap[r]? = some s → s.payload_entry_handle ≠ 0 → s.snapshot_handle = 0 →
      (xs.foldl OnTrigger_step app).heap[r]? =
        some { s with snapshot_handle := s.payload_entry_handle } := by
  induction xs with
  | nil => intro app r s h; rcases h with ⟨it, hit, _⟩; cases hit
  | cons x xs ih =>
    intro app r s h hs hp h0
    rw [List.foldl_cons]
    by_cases e : x.2 = r
    · apply OnTrigger_foldl_keeps
      · unfold OnTrigger_step
        rw [e, hs]
        simp only [hp, h0, if_false, ne_eq, not_true_eq_false]
        exact store_heap_self _ _ _ (lt_of_heap_some hs)
      · exact hp
    · apply ih _ r s _ _ hp h0
      · rcases h with ⟨it, hit, hr⟩
        rcases List.mem_cons.mp hit with e2 | hmem
        · subst e2; exact absurd hr e
        · exact ⟨it, hmem, hr⟩
      · rw [OnTrigger_step_other app x r e]; exact hs

/-- C9, as the code has it: the scan pass `OnTrigger` visits the streams stored in `streams_`,
which are the chain roots.  After it, every such root that has a payload entry
(`payload_entry_handle` non-null) and whose snapshot was null has its snapshot set to that
payload entry; every object that is not in `streams_` (so every link at a later position of a
chain) is left as it was. -/
theorem OnTrigger_captures_roots (app : chainy_t) :
    (∀ it ∈ app.streams_, ∀ s, app.heap[it.2]? = some s → s.payload_entry_handle ≠ 0 →
      s.snapshot_handle = 0 →
      (OnTrigger app).2.heap[it.2]? = some { s with snapshot_handle := s.payload_entry_handle }) ∧
    (∀ l, (∀ it ∈ app.streams_, it.2 ≠ l) → (OnTrigger app).2.heap[l]? = app.heap[l]?) := by
  constructor
  · intro it hit s hs hp h0
    exact OnTrigger_foldl_captures app.streams_ app it.2 s ⟨it, hit, rfl⟩ hs hp h0
  · intro l hl
    exact OnTrigger_foldl_other app.streams_ app l hl

/-- Witness for the amended C9: the root `A` is captured, the link `A.1` is not visited. -/
theorem OnTrigger_captures_roots_witness :
    (OnTrigger trigger_store).2.heap[0]? =
      some { item_name := "A", token := 7, index := 0, links := [some 0, some 2],
             payload_entry_handle := 50, cow_handle := 0, snapshot_handle := 50 } ∧
    (OnTrigger trigger_store).2.heap[2]? = trigger_store.heap[2]? :=
  ⟨(OnTrigger_captures_roots trigger_store).1 ("A", 0) (by decide) _ rfl (by decide) rfl,
    (OnTrigger_captures_roots trigger_store).2 2 (by decide)⟩

/-- Counterexample to C9 as stated: the link `A.1` at position 1 of the chain of `A` has a
live entry (both a payload entry and a copy-on-write entry) and a null snapshot, and its
snapshot is still null after `OnTrigger`. -/
theorem OnTrigger_skips_later_links :
    ∃ s, trigger_store.chain 0 = [some 0, some 2] ∧ trigger_store.heap[2]? = some s ∧
      s.payload_entry_handle ≠ 0 ∧ s.cow_handle ≠ 0 ∧ s.snapshot_handle = 0 ∧
      (OnTrigger trigger_store).2.heap[2]? = some s :=
  ⟨_, rfl, rfl, by decide, by decide, rfl, rfl⟩

/-! ### CheckTrigger -/

/-- C10: `CheckTrigger` never compares with `target_hour`.  Whenever the first timestamp field
(238) decodes successfully, whatever the decoded value is, `CheckTrigger` returns true; so it
does for the time 09:30, which is before the boundary hour 15. -/
theorem CheckTrigger_ignores_target_hour (rssl_buffer : String) (rest : List RsslFieldEntry) :
    CheckTrigger
        { rsslSetDecodeIteratorRWFVersion := true, rsslSetDecodeIteratorBuffer := true,
          rsslDecodeFieldList := true }
        ({ fieldId := 238, rc := RsslRet.RSSL_RET_SUCCESS, rssl_buffer := rssl_buffer } :: rest)
      = true ∧
    CheckTrigger
        { rsslSetDecodeIteratorRWFVersion := true, rsslSetDecodeIteratorBuffer := true,
          rsslDecodeFieldList := true }
        [{ fieldId := 238, rc := RsslRet.RSSL_RET_SUCCESS, rssl_buffer := "09:30" }] = true ∧
    target_hour = 15 := by
  simp [CheckTrigger, CheckTrigger_fields, target_hour]

/-! ### OnWrite: the field loop -/

theorem next_link_not_value (fieldId : Nat) (h : is_next_link_field fieldId = true) :
    is_value_field fieldId = false := by
  simp only [is_next_link_field, Bool.or_eq_true, beq_iff_eq] at h
  rcases h with h | h <;> subst h <;> rfl

theorem next_links_cons (e : RsslFieldEntry) (rest : List RsslFieldEntry) :
    next_links (e :: rest) =
      if is_next_link_field e.fieldId = true ∧
          ¬ (e.rc = RsslRet.RSSL_RET_BLANK_DATA ∨ e.rssl_buffer.length = 0) then
        e.rssl_buffer :: next_links rest
      else next_links rest := by
  by_cases h1 : is_next_link_field e.fieldId = true <;>
    by_cases h2 : e.rc = RsslRet.RSSL_RET_BLANK_DATA <;>
    by_cases h3 : e.rssl_buffer.length = 0 <;>
    simp [next_links, List.filter_cons, h1, h2, h3]

theorem link_values_cons (e : RsslFieldEntry) (rest : List RsslFieldEntry) :
    link_values (e :: rest) =
      if is_value_field e.fieldId = true ∧
          ¬ (e.rc = RsslRet.RSSL_RET_BLANK_DATA ∨ e.rssl_buffer.length = 0) then
        e.rssl_buffer :: link_values rest
      else link_values rest := by
  by_cases h1 : is_value_field e.fieldId = true <;>
    by_cases h2 : e.rc = RsslRet.RSSL_RET_BLANK_DATA <;>
    by_cases h3 : e.rssl_buffer.length = 0 <;>
    simp [link_values, List.filter_cons, h1, h2, h3]

/-- When no designated field fails to decode, the field loop of `OnWrite` runs to its end:
it appends the decoded link values to `v`, creates one link per next-link name, and leaves
`is_complete` as it was. -/
theorem OnWrite_fields_decoded (env : consumer_env) (parent : Option Nat) (index : Nat) :
    ∀ (fields : List RsslFieldEntry) (st : fields_state), (∀ e ∈ fields, decodes e) →
      OnWrite_fields env parent index fields st =
        (link_all env parent index (next_links fields) st.app).map
          (fun app1 => (true, { v := st.v ++ link_values fields,
                                is_complete := st.is_complete, app := app1 })) := by
  intro fields
  induction fields with
  | nil => intro st _; simp [OnWrite_fields, next_links, link_values, link_all]
  | cons e rest ih =>
    intro st h
    have he := h e (List.mem_cons_self _ _)
    have hrest : ∀ e ∈ rest, decodes e := fun e he => h e (List.mem_cons_of_mem _ he)
    rw [next_links_cons, link_values_cons]
    unfold OnWrite_fields
    by_cases hv : is_value_field e.fieldId = true
    · have hn : ¬ is_next_link_field e.fieldId = true := by
        intro hq
        rw [next_link_not_value _ hq] at hv; cases hv
      by_cases hb : e.rc = RsslRet.RSSL_RET_BLANK_DATA ∨ e.rssl_buffer.length = 0
      · simp only [hv, hn, hb, if_true, if_false, true_and, false_and, not_true_eq_false]
        exact ih st hrest
      · have hs : e.rc = RsslRet.RSSL_RET_SUCCESS := by
          rcases he (Or.inl hv) with h1 | h1 | h1
          · exact absurd (Or.inl h1) hb
          · exact absurd (Or.inr h1) hb
          · exact h1
        simp only [hv, hn, hb, if_true, if_false, true_and, false_and, not_false_eq_true]
        simp only [hs, ne_eq, not_true_eq_false, if_false]
        rw [ih _ hrest]
        simp
    · by_cases hn : is_next_link_field e.fieldId = true
      · by_cases hb : e.rc = RsslRet.RSSL_RET_BLANK_DATA ∨ e.rssl_buffer.length = 0
        · simp only [hv, hn, hb, if_true, if_false, true_and, false_and, not_true_eq_false]
          exact ih st hrest
        · have hs : e.rc = RsslRet.RSSL_RET_SUCCESS := by
            rcases he (Or.inr hn) with h1 | h1 | h1
            · exact absurd (Or.inl h1) hb
            · exact absurd (Or.inr h1) hb
            · exact h1
          have hlen : ¬ e.rssl_buffer.length = 0 := fun h0 => hb (Or.inr h0)
          simp only [hv, hn, hb, hlen, if_true, if_false, true_and, false_and,
            not_false_eq_true]
          simp only [hs, ne_eq, not_true_eq_false, if_false, link_all]
          cases hl : OnWrite_link env parent index e.rssl_buffer st.app with
          | none => simp
          | some app1 =>
            simp only [Option.bind_some]
            exact ih { st with app := app1 } hrest
      · simp only [hv, hn, if_false, false_and]
        exact ih st hrest



/-! ### OnWrite: creation of a link -/

theorem resize_succ_length (links : List (Option Nat)) :
    resize links (1 + links.length) = links ++ [none] := by
  have h : 1 + links.length - links.length = 1 := by omega
  simp [resize, h, List.take_of_length_le]

theorem set_append_length (links : List (Option Nat)) (a b : Option Nat) :
    (links ++ [a]).set links.length b = links ++ [b] := by
  induction links with
  | nil => rfl
  | cons x xs ih => simp [List.set, ih]

theorem set_concat_length (heap : List subscription_stream_t) (a b : subscription_stream_t) :
    (heap ++ [a]).set heap.length b = heap ++ [b] := by
  induction heap with
  | nil => rfl
  | cons x xs ih => simp [List.set, ih]

/-- A link whose registration fails is made but stored nowhere. -/
theorem OnWrite_link_unregistered (env : consumer_env) (parent : Option Nat) (index : Nat)
    (link_name : String) (app : chainy_t) (hreg : env.CreateItemStream link_name = none) :
    OnWrite_link env parent index link_name app =
      some { app with heap := app.heap ++
        [{ subscription_stream_t.fresh with links := [parent], index := 1 + index }] } := by
  simp [OnWrite_link, chainy_t.make_shared, chainy_t.store, hreg, set_concat_length]

/-- A link whose registration succeeds is stored at position `1 + index` of the parent: appended
when that is the length of the link vector, in place of the link there when it is less. -/
theorem OnWrite_link_registered (env : consumer_env) (root index : Nat) (link_name : String)
    (app : chainy_t) (token : Int) (r : subscription_stream_t)
    (hreg : env.CreateItemStream link_name = some token) (hr : app.heap[root]? = some r)
    (hi : 1 + index ≤ r.links.length) :
    OnWrite_link env (some root) index link_name app =
      some { app with heap := ((app.heap ++ [new_link root (1 + index) link_name token]).set root
        { r with links := put_link r.links (1 + index) app.heap.length }) } := by
  have hlt := lt_of_heap_some hr
  have hne : app.heap.length ≠ root := by omega
  have hr2 : ∀ x : subscription_stream_t, (app.heap ++ [x])[root]? = some r := by
    intro x; rw [List.getElem?_append_left hlt]; exact hr
  by_cases he : 1 + index = r.links.length
  · simp only [OnWrite_link, chainy_t.make_shared, chainy_t.store, chainy_t.register, hreg,
      set_concat_length, List.getElem?_concat_length, Option.some_bind, hr2, Option.map_some',
      he, if_true, put_link, new_link, resize_succ_length, set_append_length,
      List.length_append, List.length_singleton, Nat.lt_succ_self]
  · have hlt2 : 1 + index < r.links.length := by omega
    simp only [OnWrite_link, chainy_t.make_shared, chainy_t.store, chainy_t.register, hreg,
      set_concat_length, List.getElem?_concat_length, Option.some_bind, hr2, Option.map_some',
      he, if_false, put_link, new_link, hlt2, if_true]

/-! ### OnWrite: what it leaves alone -/

theorem links_changed_refl (app : chainy_t) : links_changed app app :=
  fun _ s hs => ⟨s, hs, rfl⟩

theorem links_changed_trans {a b c : chainy_t} (h1 : links_changed a b)
    (h2 : links_changed b c) : links_changed a c := by
  intro l s hs
  obtain ⟨s1, hs1, e1⟩ := h1 l s hs
  obtain ⟨s2, hs2, e2⟩ := h2 l s1 hs1
  refine ⟨s2, hs2, ?_⟩
  rw [e1, e2]

theorem links_changed_append (app : chainy_t) (xs : List subscription_stream_t) :
    links_changed app { app with heap := app.heap ++ xs } := by
  intro l s hs
  refine ⟨s, ?_, rfl⟩
  show (app.heap ++ xs)[l]? = some s
  rw [List.getElem?_append_left (lt_of_heap_some hs)]
  exact hs

theorem links_changed_store (app : chainy_t) (p : Nat) (s0 : subscription_stream_t)
    (links : List (Option Nat)) (h0 : app.heap[p]? = some s0) :
    links_changed app (app.store p { s0 with links := links }) := by
  intro l s hs
  by_cases e : p = l
  · subst e
    rw [h0] at hs
    cases hs
    exact ⟨_, store_heap_self _ _ _ (lt_of_heap_some h0), rfl⟩
  · exact ⟨s, by rw [store_heap_ne _ _ _ _ e]; exact hs, rfl⟩

theorem OnWrite_link_links_changed (env : consumer_env) (parent : Option Nat) (index : Nat)
    (link_name : String) (app app1 : chainy_t)
    (h : OnWrite_link env parent index link_name app = some app1) : links_changed app app1 := by
  cases hreg : env.CreateItemStream link_name with
  | none =>
    rw [OnWrite_link_unregistered env parent index link_name app hreg] at h
    cases h
    exact links_changed_append app _
  | some token =>
    simp only [OnWrite_link, chainy_t.make_shared, chainy_t.store, chainy_t.register, hreg,
      set_concat_length, List.getElem?_concat_length] at h
    cases parent with
    | none => simp at h
    | some q =>
      simp only [Option.some_bind] at h
      cases hq : (app.heap ++ [{ subscription_stream_t.fresh with
          links := [some q], index := 1 + index, item_name := link_name, token := token }])[q]? with
      | none => rw [hq] at h; simp at h
      | some s2 =>
        rw [hq] at h
        simp only [Option.map_some'] at h
        split at h <;> split at h
        all_goals first
          | cases h
            exact links_changed_trans (links_changed_append app _)
              (links_changed_store _ _ _ _ hq)
          | cases h

theorem OnWrite_fields_links_changed (env : consumer_env) (parent : Option Nat) (index : Nat) :
    ∀ (fields : List RsslFieldEntry) (st : fields_state) (b : Bool) (st1 : fields_state),
      OnWrite_fields env parent index fields st = some (b, st1) →
      links_changed st.app st1.app := by
  intro fields
  induction fields with
  | nil =>
    intro st b st1 h
    simp only [OnWrite_fields, Option.some.injEq, Prod.mk.injEq] at h
    rw [← h.2]
    exact links_changed_refl _
  | cons e rest ih =>
    intro st b st1 h
    unfold OnWrite_fields at h
    split at h
    · split at h
      · exact (by have h2 := ih _ _ _ h; exact h2)
      · split at h
        · simp only [Option.some.injEq, Prod.mk.injEq] at h
          rw [← h.2]
          exact links_changed_refl _
        · exact (by have h2 := ih _ _ _ h; exact h2)
    · split at h
      · split at h
        · exact (by have h2 := ih _ _ _ h; exact h2)
        · split at h
          · simp only [Option.some.injEq, Prod.mk.injEq] at h
            rw [← h.2]
            exact links_changed_refl _
          · split at h
            · split at h
              · cases h
              · rename_i p s hp
                cases parent with
                | none => simp at hp
                | some q =>
                  simp only [Option.some_bind, Option.map_eq_some'] at hp
                  obtain ⟨s2, hs2, e2⟩ := hp
                  cases e2
                  exact links_changed_trans (links_changed_store _ _ _ _ hs2)
                    (by have h2 := ih _ _ _ h; exact h2)
            · split at h
              · cases h
              · rename_i app1 hl
                exact links_changed_trans (OnWrite_link_links_changed _ _ _ _ _ _ hl)
                  (by have h2 := ih _ _ _ h; exact h2)
      · exact (by have h2 := ih _ _ _ h; exact h2)



/-! ### OnWrite: publication -/

/-- What the last part of `OnWrite` does when it returns true. -/
theorem OnWrite_publish_true (env : consumer_env) (stream : Nat) (parent : Option Nat)
    (major minor : Nat) (st : fields_state) (r : OnWrite_result)
    (h : OnWrite_publish env stream parent major minor st = some r) (ht : r.result = true) :
    ∃ (s1 : subscription_stream_t) (msg : RsslRefreshMsg) (cow_handle : Nat),
      st.app.heap[stream]? = some s1 ∧
      cow_handle = (if s1.cow_handle = 0 then env.rsslPayloadEntryCreate else s1.cow_handle) ∧
      cow_handle ≠ 0 ∧
      r.app.heap[stream]? =
        some { s1 with cow_handle := cow_handle, snapshot_handle := cow_handle } ∧
      r.written = some msg ∧
      r.app.payload_cache = (cow_handle, msg) :: st.app.payload_cache ∧
      (∀ l, l ≠ stream → r.app.heap[l]? = st.app.heap[l]?) := by
  unfold OnWrite_publish at h
  split at h
  · rename_i par s hpar hs
    split at h
    · cases h; cases ht
    · rename_i msg hmsg
      simp only at h
      generalize hc : (if s.cow_handle = 0 then env.rsslPayloadEntryCreate
        else s.cow_handle) = c at h
      by_cases hc0 : c = 0
      · rw [if_pos hc0] at h; cases h; cases ht
      · rw [if_neg hc0] at h
        split at h
        · cases h; cases ht
        · split at h
          · cases h; cases ht
          · cases h
            have hlt := lt_of_heap_some hs
            refine ⟨s, msg, c, hs, hc.symm, hc0, ?_, rfl, rfl, ?_⟩
            · simp [chainy_t.store, hlt]
            · intro l hl
              simp [chainy_t.store, Ne.symm hl]
  · cases h

/-- The last part of `OnWrite` only changes the handles of `stream`. -/
theorem OnWrite_publish_snapshots_kept (env : consumer_env) (stream : Nat) (parent : Option Nat)
    (major minor : Nat) (st : fields_state) (r : OnWrite_result)
    (h : OnWrite_publish env stream parent major minor st = some r) :
    snapshots_kept st.app r.app := by
  by_cases ht : r.result = true
  · obtain ⟨s1, msg, c, hs1, _, hc, hnew, _, _, hother⟩ :=
      OnWrite_publish_true env stream parent major minor st r h ht
    intro l s hs hn
    by_cases e : l = stream
    · subst e
      exact ⟨_, hnew, hc⟩
    · exact ⟨s, by rw [hother l e]; exact hs, hn⟩
  · unfold OnWrite_publish at h
    split at h
    · rename_i par s0 hpar hs0
      split at h
      · cases h; exact fun l s hs hn => ⟨s, hs, hn⟩
      · simp only at h
        generalize hc : (if s0.cow_handle = 0 then env.rsslPayloadEntryCreate
          else s0.cow_handle) = c at h
        by_cases hc0 : c = 0
        · rw [if_pos hc0] at h; cases h; exact fun l s hs hn => ⟨s, hs, hn⟩
        · rw [if_neg hc0] at h
          have hkeep : snapshots_kept st.app
              (st.app.store stream { s0 with cow_handle := c }) := by
            intro l s hs hn
            by_cases e : stream = l
            · subst e
              rw [hs0] at hs
              cases hs
              exact ⟨_, store_heap_self _ _ _ (lt_of_heap_some hs0), hn⟩
            · exact ⟨s, by rw [store_heap_ne _ _ _ _ e]; exact hs, hn⟩
          split at h
          · cases h; exact hkeep
          · split at h
            · cases h; exact hkeep
            · cases h; exact absurd rfl ht
    · cases h

theorem links_changed_snapshots_kept {app app1 : chainy_t} (h : links_changed app app1) :
    snapshots_kept app app1 := by
  intro l s hs hn
  obtain ⟨s1, hs1, e⟩ := h l s hs
  refine ⟨s1, hs1, ?_⟩
  rw [e] at hn
  exact hn

theorem snapshots_kept_trans {a b c : chainy_t} (h1 : snapshots_kept a b)
    (h2 : snapshots_kept b c) : snapshots_kept a c := by
  intro l s hs hn
  obtain ⟨s1, hs1, hn1⟩ := h1 l s hs hn
  exact h2 l s1 hs1 hn1

/-- The shape of a defined `OnWrite`: it stops early and leaves the state alone, or it stops
in the field loop, or it goes through the field loop and the publication. -/
theorem OnWrite_cases (env : consumer_env) (app : chainy_t) (stream : Nat) (major minor : Nat)
    (fields : List RsslFieldEntry) (r : OnWrite_result)
    (h : OnWrite env app stream major minor fields = some r) :
    ∃ (s0 : subscription_stream_t) (parent : Option Nat),
      app.heap[stream]? = some s0 ∧ s0.links.head? = some parent ∧
      ((r.result = false ∧ r.app = app) ∨
       (∃ st, OnWrite_fields env parent s0.index fields
          { v := [], is_complete := false, app := app } = some (false, st) ∧
          r.result = false ∧ r.app = st.app) ∨
       (∃ st, OnWrite_fields env parent s0.index fields
          { v := [], is_complete := false, app := app } = some (true, st) ∧
          OnWrite_publish env stream parent major minor st = some r)) := by
  unfold OnWrite at h
  split at h
  · cases h
  · rename_i s0 hs0
    split at h
    · cases h
    · rename_i parent tl hl
      refine ⟨s0, parent, hs0, by rw [hl]; rfl, ?_⟩
      split at h
      · cases h; exact Or.inl ⟨rfl, rfl⟩
      · split at h
        · cases h; exact Or.inl ⟨rfl, rfl⟩
        · split at h
          · cases h; exact Or.inl ⟨rfl, rfl⟩
          · split at h
            · cases h
            · rename_i st hst
              cases h
              exact Or.inr (Or.inl ⟨st, hst, rfl, rfl⟩)
            · rename_i st hst
              exact Or.inr (Or.inr ⟨st, hst, h⟩)

/-- C6: whenever `OnWrite` returns true for an update on a link, the snapshot handle of the
link is afterwards non-null and equal to its copy-on-write entry handle; that entry is the one
the link had, or a newly created one when it had none; and the message `WriteRaw` encoded is
the last one applied to that entry in the cache. -/
theorem OnWrite_publishes_snapshot (env : consumer_env) (app : chainy_t) (stream : Nat)
    (major minor : Nat) (fields : List RsslFieldEntry) (r : OnWrite_result)
    (h : OnWrite env app stream major minor fields = some r) (ht : r.result = true) :
    ∃ (s0 s : subscription_stream_t) (msg : RsslRefreshMsg),
      app.heap[stream]? = some s0 ∧ r.app.heap[stream]? = some s ∧
      s.snapshot_handle ≠ 0 ∧ s.snapshot_handle = s.cow_handle ∧
      s.cow_handle = (if s0.cow_handle = 0 then env.rsslPayloadEntryCreate else s0.cow_handle) ∧
      r.written = some msg ∧ r.app.payload_cache.head? = some (s.cow_handle, msg) := by
  obtain ⟨s0, parent, hs0, _, hcase⟩ := OnWrite_cases env app stream major minor fields r h
  rcases hcase with ⟨hf, _⟩ | ⟨st, _, hf, _⟩ | ⟨st, hst, hpub⟩
  · rw [hf] at ht; cases ht
  · rw [hf] at ht; cases ht
  · obtain ⟨s1, msg, c, hs1, hc, hc0, hnew, hw, hcache, _⟩ :=
      OnWrite_publish_true env stream parent major minor st r hpub ht
    obtain ⟨s1b, hs1b, e⟩ := OnWrite_fields_links_changed env parent s0.index fields _ _ _ hst
      stream s0 hs0
    have e1 : s1b = s1 := by
      have := hs1b.symm.trans hs1
      exact Option.some.inj this
    subst e1
    have hcow : s0.cow_handle = s1b.cow_handle := by rw [e]
    refine ⟨s0, _, msg, hs0, hnew, hc0, rfl, ?_, hw, ?_⟩
    · show c = _
      rw [hcow]; exact hc
    · rw [hcache]; rfl



/-- Witness for C6: the first update of the root `A`, which had no entry yet. -/
theorem OnWrite_publishes_snapshot_witness :
    ∃ r, OnWrite consumer_env.ok trigger_store 0 14 1 [next_link "A.1"] = some r ∧
      r.result = true ∧
      ∃ (s0 s : subscription_stream_t) (msg : RsslRefreshMsg),
        trigger_store.heap[0]? = some s0 ∧ r.app.heap[0]? = some s ∧
        s.snapshot_handle ≠ 0 ∧ s.snapshot_handle = s.cow_handle ∧
        s.cow_handle = (if s0.cow_handle = 0 then consumer_env.ok.rsslPayloadEntryCreate
          else s0.cow_handle) ∧
        r.written = some msg ∧ r.app.payload_cache.head? = some (s.cow_handle, msg) :=
  ⟨_, rfl, rfl,
    OnWrite_publishes_snapshot consumer_env.ok trigger_store 0 14 1 [next_link "A.1"] _ rfl rfl⟩

/-! ### Snapshot monotonicity -/

theorem OnWrite_snapshots_kept (env : consumer_env) (app : chainy_t) (stream : Nat)
    (major minor : Nat) (fields : List RsslFieldEntry) (r : OnWrite_result)
    (h : OnWrite env app stream major minor fields = some r) : snapshots_kept app r.app := by
  obtain ⟨s0, parent, _, _, hcase⟩ := OnWrite_cases env app stream major minor fields r h
  rcases hcase with ⟨_, hf⟩ | ⟨st, hst, _, hf⟩ | ⟨st, hst, hpub⟩
  · rw [hf]; exact fun l s hs hn => ⟨s, hs, hn⟩
  · rw [hf]
    exact links_changed_snapshots_kept (OnWrite_fields_links_changed _ _ _ _ _ _ _ hst)
  · exact snapshots_kept_trans
      (links_changed_snapshots_kept (OnWrite_fields_links_changed _ _ _ _ _ _ _ hst))
      (OnWrite_publish_snapshots_kept _ _ _ _ _ _ _ hpub)

theorem step_snapshots_kept (app app1 : chainy_t) (op : Op) (h : step app op = some app1) :
    snapshots_kept app app1 := by
  cases op with
  | OnWrite env stream major minor fields =>
    simp only [step, Option.map_eq_some'] at h
    obtain ⟨r, hr, e⟩ := h
    rw [← e]
    exact OnWrite_snapshots_kept env app stream major minor fields r hr
  | OnTrigger =>
    simp only [step, Option.some.injEq] at h
    rw [← h]
    intro l s hs hn
    exact ⟨s, OnTrigger_foldl_keeps app.streams_ app l s hs hn, hn⟩
  | OnSync =>
    simp only [step, OnSync, Option.some.injEq] at h
    rw [← h]
    exact fun l s hs hn => ⟨s, hs, hn⟩
  | OnRequest env req =>
    simp only [step] at h
    split at h
    · cases h; exact fun l s hs hn => ⟨s, hs, hn⟩
    · cases h

/-- C7: snapshot monotonicity.  For every link and every sequence of `OnWrite`, `OnTrigger`,
`OnSync` and `OnRequest` calls, a snapshot handle that is non-null before the sequence is
non-null after it. -/
theorem snapshot_monotonic (ops : List Op) (app app1 : chainy_t) (l : Nat)
    (s : subscription_stream_t) (hrun : run app ops = some app1)
    (hs : app.heap[l]? = some s) (hn : s.snapshot_handle ≠ 0) :
    ∃ s1, app1.heap[l]? = some s1 ∧ s1.snapshot_handle ≠ 0 := by
  induction ops generalizing app s with
  | nil =>
    simp only [run, Option.some.injEq] at hrun
    rw [← hrun]
    exact ⟨s, hs, hn⟩
  | cons op ops ih =>
    simp only [run] at hrun
    cases hstep : step app op with
    | none => rw [hstep] at hrun; cases hrun
    | some app2 =>
      rw [hstep] at hrun
      obtain ⟨s2, hs2, hn2⟩ := step_snapshots_kept app app2 op hstep l s hs hn
      exact ih app2 s2 hrun hs2 hn2

/-- Witness for C7: the snapshot of `B` through a scan, an update of `B`, a sync and a
request. -/
theorem snapshot_monotonic_witness :
    ∃ app1,
      run trigger_store
        [Op.OnTrigger, Op.OnWrite consumer_env.ok 1 14 1 [blank_next_link], Op.OnSync,
          Op.OnRequest provider_env.ok (request_for "B")] = some app1 ∧
      ∃ s1, app1.heap[1]? = some s1 ∧ s1.snapshot_handle ≠ 0 :=
  ⟨_, rfl,
    snapshot_monotonic
      [Op.OnTrigger, Op.OnWrite consumer_env.ok 1 14 1 [blank_next_link], Op.OnSync,
        Op.OnRequest provider_env.ok (request_for "B")]
      trigger_store _ 1 _ rfl rfl (by decide)⟩

/-! ### Blank next-link fields -/

/-- C4: a blank next-link field does not end the chain in the code.  On the chain
`FOO → FOO.1 → FOO.2`, an update of the root (position 0) whose field 238 is blank, or whose
field 815 has length zero, returns true, but the message is encoded with refresh-complete
false and the chain keeps its three links. -/
theorem OnWrite_blank_next_link_keeps_chain :
    FOO_store.chain 0 = [some 0, some 1, some 2] ∧
    (OnWrite consumer_env.ok FOO_store 0 14 1 [blank_next_link]).map
        (fun r => (r.result, r.app.chain 0, r.written.map (fun m => m.refresh_complete))) =
      some (true, [some 0, some 1, some 2], some false) ∧
    (OnWrite consumer_env.ok FOO_store 0 14 1
        [{ fieldId := 815, rc := RsslRet.RSSL_RET_SUCCESS, rssl_buffer := "" }]).map
        (fun r => (r.result, r.app.chain 0, r.written.map (fun m => m.refresh_complete))) =
      some (true, [some 0, some 1, some 2], some false) := by
  refine ⟨rfl, ?_, ?_⟩ <;> rfl

/-! ### OnWrite: an update whose designated fields all decode -/

theorem put_link_length (links : List (Option Nat)) (index link_stream : Nat) :
    (put_link links index link_stream).length =
      if index = links.length then links.length + 1 else links.length := by
  unfold put_link
  split <;> simp

theorem put_link_getElem (links : List (Option Nat)) (index link_stream : Nat)
    (h : index ≤ links.length) :
    (put_link links index link_stream)[index]? = some (some link_stream) := by
  unfold put_link
  split
  · rename_i e
    subst e
    simp
  · rename_i e
    have hlt : index < links.length := by omega
    simp [hlt]

/-- The state after a link has been made and registered. -/
theorem OnWrite_link_registered_spec (env : consumer_env) (root index : Nat) (link_name : String)
    (app : chainy_t) (token : Int) (r : subscription_stream_t)
    (hreg : env.CreateItemStream link_name = some token) (hr : app.heap[root]? = some r)
    (hi : 1 + index ≤ r.links.length) :
    ∃ app1, OnWrite_link env (some root) index link_name app = some app1 ∧
      app1.heap[root]? =
        some { r with links := put_link r.links (1 + index) app.heap.length } ∧
      app1.heap[app.heap.length]? = some (new_link root (1 + index) link_name token) ∧
      (∀ l, l ≠ root → l < app.heap.length → app1.heap[l]? = app.heap[l]?) ∧
      app1.heap.length = app.heap.length + 1 := by
  have hlt := lt_of_heap_some hr
  refine ⟨_, OnWrite_link_registered env root index link_name app token r hreg hr hi,
    ?_, ?_, ?_, ?_⟩
  · exact List.getElem?_set_self (by simp only [List.length_append, List.length_singleton]; omega)
  · have hne : root ≠ app.heap.length := by omega
    show ((app.heap ++ [_]).set root _)[app.heap.length]? = some _
    rw [List.getElem?_set_ne hne, List.getElem?_concat_length]
  · intro l hl hl2
    show ((app.heap ++ [_]).set root _)[l]? = _
    rw [List.getElem?_set_ne (Ne.symm hl), List.getElem?_append_left hl2]
  · simp

/-- The last part of `OnWrite` is defined when the stream and its parent can be dereferenced,
and changes at most the handles of the stream. -/
theorem OnWrite_publish_defined (env : consumer_env) (stream : Nat) (parent : Option Nat)
    (major minor : Nat) (st : fields_state) (par s : subscription_stream_t)
    (hpar : parent.bind (fun p => st.app.heap[p]?) = some par)
    (hs : st.app.heap[stream]? = some s) :
    ∃ r s1, OnWrite_publish env stream parent major minor st = some r ∧
      r.app.heap[stream]? = some s1 ∧ s1.links = s.links ∧ s1.index = s.index ∧
      (∀ l, l ≠ stream → r.app.heap[l]? = st.app.heap[l]?) ∧
      r.app.heap.length = st.app.heap.length := by
  have hlt := lt_of_heap_some hs
  unfold OnWrite_publish
  rw [hpar, hs]
  simp only
  split
  · exact ⟨_, s, rfl, hs, rfl, rfl, fun _ _ => rfl, rfl⟩
  · generalize (if s.cow_handle = 0 then env.rsslPayloadEntryCreate else s.cow_handle) = c
    by_cases hc0 : c = 0
    · rw [if_pos hc0]
      exact ⟨_, s, rfl, hs, rfl, rfl, fun _ _ => rfl, rfl⟩
    · rw [if_neg hc0]
      split
      · exact ⟨_, _, rfl, store_heap_self _ _ _ hlt, rfl, rfl,
          fun l hl => store_heap_ne _ _ _ _ (Ne.symm hl), by simp [chainy_t.store]⟩
      · split
        · exact ⟨_, _, rfl, store_heap_self _ _ _ hlt, rfl, rfl,
            fun l hl => store_heap_ne _ _ _ _ (Ne.symm hl), by simp [chainy_t.store]⟩
        · refine ⟨_, { s with cow_handle := c, snapshot_handle := c }, rfl, ?_, rfl, rfl, ?_, ?_⟩
          · simp [chainy_t.store, hlt]
          · intro l hl
            simp [chainy_t.store, Ne.symm hl]
          · simp [chainy_t.store]

/-- An update whose decoder set-up succeeds and whose designated fields all decode: `OnWrite`
creates one link per next-link name and then goes on to the publication. -/
theorem OnWrite_decoded (env : consumer_env) (app : chainy_t) (stream : Nat) (major minor : Nat)
    (fields : List RsslFieldEntry) (s0 : subscription_stream_t) (parent : Option Nat)
    (hs0 : app.heap[stream]? = some s0) (hl : s0.links.head? = some parent)
    (h1 : env.decoder.rsslSetDecodeIteratorRWFVersion = true)
    (h2 : env.decoder.rsslSetDecodeIteratorBuffer = true)
    (h3 : env.decoder.rsslDecodeFieldList = true)
    (hfields : ∀ e ∈ fields, decodes e) :
    OnWrite env app stream major minor fields =
      (link_all env parent s0.index (next_links fields) app).bind (fun app1 =>
        OnWrite_publish env stream parent major minor
          { v := link_values fields, is_complete := false, app := app1 }) := by
  unfold OnWrite
  rw [hs0]
  simp only
  cases hlinks : s0.links with
  | nil => rw [hlinks] at hl; cases hl
  | cons p tl =>
    rw [hlinks] at hl
    simp only [List.head?_cons, Option.some.injEq] at hl
    subst hl
    simp only [h1, h2, h3, Bool.not_true, Bool.false_eq_true, if_false]
    rw [OnWrite_fields_decoded env p s0.index fields _ hfields]
    cases link_all env p s0.index (next_links fields) app with
    | none => rfl
    | some app1 => simp



/-! ### A next-link value for a position that already holds a link -/

/-- C5, as the code has it: when a link already exists at position `1 + index` of the chain, an
update for the link with that `index` that carries one non-blank next-link value `name` always
makes a new link object and asks for its registration.  When the registration succeeds, the
new link (which has no entry and no snapshot yet) replaces the link stored at position
`1 + index`, the length of the chain and its other positions being unchanged; when it fails,
the link vector is unchanged. -/
theorem OnWrite_next_link_replaces (env : consumer_env) (app : chainy_t) (stream : Nat)
    (major minor : Nat) (fields : List RsslFieldEntry) (name : String)
    (s0 r0 : subscription_stream_t) (root : Nat)
    (hs0 : app.heap[stream]? = some s0) (hl : s0.links.head? = some (some root))
    (hr0 : app.heap[root]? = some r0) (hex : 1 + s0.index < r0.links.length)
    (h1 : env.decoder.rsslSetDecodeIteratorRWFVersion = true)
    (h2 : env.decoder.rsslSetDecodeIteratorBuffer = true)
    (h3 : env.decoder.rsslDecodeFieldList = true)
    (hfields : ∀ e ∈ fields, decodes e) (hnl : next_links fields = [name]) :
    ∃ r, OnWrite env app stream major minor fields = some r ∧
      r.app.heap.length = app.heap.length + 1 ∧
      (∀ token, env.CreateItemStream name = some token →
        r.app.chain root = r0.links.set (1 + s0.index) (some app.heap.length) ∧
        r.app.heap[app.heap.length]? = some (new_link root (1 + s0.index) name token)) ∧
      (env.CreateItemStream name = none → r.app.chain root = r0.links) := by
  have hstream := lt_of_heap_some hs0
  have hroot := lt_of_heap_some hr0
  rw [OnWrite_decoded env app stream major minor fields s0 (some root) hs0 hl h1 h2 h3 hfields,
    hnl]
  simp only [link_all]
  cases hreg : env.CreateItemStream name with
  | none =>
    rw [OnWrite_link_unregistered env (some root) s0.index name app hreg]
    simp only [Option.some_bind]
    have hr1 : (app.heap ++ [{ subscription_stream_t.fresh with
        links := [some root], index := 1 + s0.index }])[root]? = some r0 := by
      rw [List.getElem?_append_left hroot]; exact hr0
    have hs1 : (app.heap ++ [{ subscription_stream_t.fresh with
        links := [some root], index := 1 + s0.index }])[stream]? = some s0 := by
      rw [List.getElem?_append_left hstream]; exact hs0
    obtain ⟨r, s1, hpub, hnew, hlinks, _, hother, hlen⟩ :=
      OnWrite_publish_defined env stream (some root) major minor
        { v := link_values fields, is_complete := false,
          app := { app with heap := app.heap ++ [{ subscription_stream_t.fresh with
            links := [some root], index := 1 + s0.index }] } }
        r0 s0 hr1 hs1
    refine ⟨r, hpub, ?_, ?_, ?_⟩
    · rw [hlen]; simp
    · intro token ht; cases ht
    · intro _
      unfold chainy_t.chain
      by_cases e : root = stream
      · subst e
        have : s0 = r0 := Option.some.inj (hs0.symm.trans hr0)
        simp only [hnew, hlinks, this]
      · rw [hother root e]
        simp only [hr1]
  | some token =>
    obtain ⟨app1, hlink, hroot1, hnew1, hother1, hlen1⟩ :=
      OnWrite_link_registered_spec env root s0.index name app token r0 hreg hr0 (by omega)
    rw [hlink]
    simp only [Option.some_bind]
    have hput : put_link r0.links (1 + s0.index) app.heap.length =
        r0.links.set (1 + s0.index) (some app.heap.length) := by
      unfold put_link
      rw [if_neg (by omega)]
    rw [hput] at hroot1
    have hs1 : ∃ s1, app1.heap[stream]? = some s1 ∧
        (stream = root → s1.links = r0.links.set (1 + s0.index) (some app.heap.length)) := by
      by_cases e : stream = root
      · subst e
        exact ⟨_, hroot1, fun _ => rfl⟩
      · exact ⟨s0, by rw [hother1 stream e hstream]; exact hs0, fun h => absurd h e⟩
    obtain ⟨s1, hs1, hs1links⟩ := hs1
    obtain ⟨r, s2, hpub, hnew, hlinks, _, hother, hlen⟩ :=
      OnWrite_publish_defined env stream (some root) major minor
        { v := link_values fields, is_complete := false, app := app1 } _ s1 hroot1 hs1
    refine ⟨r, hpub, ?_, ?_, ?_⟩
    · rw [hlen]; exact hlen1
    · intro token2 ht
      cases ht
      constructor
      · unfold chainy_t.chain
        by_cases e : root = stream
        · subst e
          simp only [hnew, hlinks, hs1links rfl]
        · rw [hother root e]
          simp only [hroot1]
      · rw [hother _ (by omega)]
        exact hnew1
    · intro h; cases h

/-- Witness for the amended C5: the root of `FOO → FOO.1 → FOO.2` is told again that its next
link is `FOO.1`. -/
theorem OnWrite_next_link_replaces_witness :
    ∃ r, OnWrite consumer_env.ok FOO_store 0 14 1 [next_link "FOO.1"] = some r ∧
      r.app.heap.length = 3 + 1 ∧
      (∀ token, consumer_env.ok.CreateItemStream "FOO.1" = some token →
        r.app.chain 0 = [some 0, some 3, some 2] ∧
        r.app.heap[3]? = some (new_link 0 (1 + 0) "FOO.1" token)) ∧
      (consumer_env.ok.CreateItemStream "FOO.1" = none →
        r.app.chain 0 = [some 0, some 1, some 2]) :=
  OnWrite_next_link_replaces consumer_env.ok FOO_store 0 14 1 [next_link "FOO.1"] "FOO.1"
    _ _ 0 rfl rfl rfl (by decide) rfl rfl rfl (by decide) rfl

/-- Counterexample to C5 as stated: on the chain `FOO → FOO.1 → FOO.2` a link exists at
position 1; after an update of the root that names `FOO.1` as next link, position 1 holds
another object, newly made and without a snapshot, and the heap has one object more. -/
theorem OnWrite_next_link_not_kept :
    ∃ r, OnWrite consumer_env.ok FOO_store 0 14 1 [next_link "FOO.1"] = some r ∧
      (FOO_store.chain 0)[1]? = some (some 1) ∧ (r.app.chain 0)[1]? = some (some 3) ∧
      FOO_store.snapshot_of (some 1) = 101 ∧ r.app.snapshot_of (some 3) = 0 ∧
      r.app.heap.length = FOO_store.heap.length + 1 :=
  ⟨_, rfl, rfl, rfl, rfl, rfl, rfl⟩

/-! ### Chain growth along the chain -/

theorem chain_tip_last_link (app : chainy_t) (root n : Nat) (h : chain_tip app root n) :
    ∃ last s, app.last_link root = some last ∧ app.heap[last]? = some s ∧ s.index = n ∧
      s.links.head? = some (some root) := by
  obtain ⟨r, last, s, hr, hlen, hlast, hs, hi, hp⟩ := h
  refine ⟨last, s, ?_, hs, hi, hp⟩
  unfold chainy_t.last_link chainy_t.chain
  simp only [hr]
  rw [List.getLast?_eq_getElem?, hlen]
  have e : 1 + n - 1 = n := by omega
  rw [e, hlast]
  rfl

/-- The link creations of one update, every registration succeeding, on a chain of `1 + n` or
`2 + n` links, for the link with index `n`: afterwards the chain has `2 + n` links and the
last one is a new link with index `1 + n`. -/
theorem link_all_grows (env : consumer_env) (root n : Nat)
    (hreg : ∀ name, ∃ token, env.CreateItemStream name = some token) :
    ∀ (names : List String) (app : chainy_t) (r : subscription_stream_t), names ≠ [] →
      app.heap[root]? = some r → (r.links.length = 1 + n ∨ r.links.length = 2 + n) →
      ∃ (app1 : chainy_t) (r1 : subscription_stream_t) (new : Nat) (obj : subscription_stream_t),
        link_all env (some root) n names app = some app1 ∧
        app1.heap[root]? = some r1 ∧ r1.links.length = 2 + n ∧
        r1.links[1 + n]? = some (some new) ∧ r1.index = r.index ∧
        r1.links.head? = r.links.head? ∧
        app1.heap[new]? = some obj ∧ obj.index = 1 + n ∧ obj.links = [some root] ∧
        (∀ l, l ≠ root → l < app.heap.length → app1.heap[l]? = app.heap[l]?) ∧
        app.heap.length ≤ app1.heap.length := by
  intro names
  induction names with
  | nil => intro app r h; exact absurd rfl h
  | cons name rest ih =>
    intro app r _ hr hlen
    obtain ⟨token, htoken⟩ := hreg name
    obtain ⟨app1, hlink, hroot1, hnew1, hother1, hlen1⟩ :=
      OnWrite_link_registered_spec env root n name app token r htoken hr (by omega)
    have hroot := lt_of_heap_some hr
    have hputlen : (put_link r.links (1 + n) app.heap.length).length = 2 + n := by
      rw [put_link_length]
      split <;> omega
    have hputget := put_link_getElem r.links (1 + n) app.heap.length (by omega)
    have hputhead : (put_link r.links (1 + n) app.heap.length).head? = r.links.head? := by
      unfold put_link
      split
      · cases hl : r.links with
        | nil => rw [hl] at hlen; simp at hlen; omega
        | cons x xs => rfl
      · cases hl : r.links with
        | nil => rw [hl] at hlen; simp at hlen; omega
        | cons x xs => rw [Nat.add_comm 1 n]; rfl
    simp only [link_all, hlink, Option.some_bind]
    by_cases hrest : rest = []
    · subst hrest
      refine ⟨app1, _, app.heap.length, _, rfl, hroot1, hputlen, hputget, rfl, hputhead, hnew1,
        rfl, rfl, hother1, by omega⟩
    · obtain ⟨app2, r2, new, obj, hall, hroot2, hlen2, hget2, hidx2, hhead2, hnew2, hoi, hol,
        hother2, hle2⟩ := ih app1 _ hrest hroot1 (Or.inr hputlen)
      refine ⟨app2, r2, new, obj, hall, hroot2, hlen2, hget2, hidx2, ?_, hnew2, hoi, hol, ?_,
        by omega⟩
      · rw [hhead2]; exact hputhead
      · intro l hl hl2
        rw [hother2 l hl (by omega), hother1 l hl hl2]

/-- One update delivered on the last link of a chain of `1 + n` links: the chain keeps its
length when the update carries no non-blank next-link, and has `2 + n` links, the last one
new, when it carries one. -/
theorem OnWrite_tip (u : consumer_env × List RsslFieldEntry) (app : chainy_t)
    (root n major minor : Nat) (hu : delivered u) (htip : chain_tip app root n) :
    ∃ stream r, app.last_link root = some stream ∧
      OnWrite u.1 app stream major minor u.2 = some r ∧
      chain_tip r.app root (if next_links u.2 = [] then n else 1 + n) := by
  obtain ⟨stream, s, hlast, hs, hidx, hpar⟩ := chain_tip_last_link app root n htip
  obtain ⟨r0, last, s', hr0, hlen0, hget0, hs', hi', hp'⟩ := htip
  obtain ⟨h1, h2, h3, hfields, hreg⟩ := hu
  have hstream := lt_of_heap_some hs
  have hroot := lt_of_heap_some hr0
  refine ⟨stream, ?_⟩
  rw [OnWrite_decoded u.1 app stream major minor u.2 s (some root) hs hpar h1 h2 h3 hfields,
    hidx]
  by_cases hnl : next_links u.2 = []
  · rw [hnl, if_pos rfl]
    simp only [link_all, Option.some_bind]
    obtain ⟨r, s1, hpub, hnew, hlinks, hindex, hother, _⟩ :=
      OnWrite_publish_defined u.1 stream (some root) major minor
        { v := link_values u.2, is_complete := false, app := app } r0 s hr0 hs
    refine ⟨r, hlast, hpub, ?_⟩
    have hkeep : ∀ (l : Nat) (x : subscription_stream_t), app.heap[l]? = some x →
        ∃ x1, r.app.heap[l]? = some x1 ∧ x1.links = x.links ∧ x1.index = x.index := by
      intro l x hx
      by_cases e : l = stream
      · subst e
        have : x = s := Option.some.inj (hx.symm.trans hs)
        subst this
        exact ⟨s1, hnew, hlinks, hindex⟩
      · exact ⟨x, by rw [hother l e]; exact hx, rfl, rfl⟩
    obtain ⟨r1, hr1, hr1l, _⟩ := hkeep root r0 hr0
    obtain ⟨s2, hs2, hs2l, hs2i⟩ := hkeep last s' hs'
    exact ⟨r1, last, s2, hr1, by rw [hr1l]; exact hlen0, by rw [hr1l]; exact hget0, hs2,
      by rw [hs2i]; exact hi', by rw [hs2l]; exact hp'⟩
  · rw [if_neg hnl]
    obtain ⟨app1, r1, new, obj, hall, hroot1, hlen1, hget1, _, _, hnew1, hoi, hol, hother1,
      hle1⟩ := link_all_grows u.1 root n hreg (next_links u.2) app r0 hnl hr0 (Or.inl hlen0)
    rw [hall]
    simp only [Option.some_bind]
    have hs1 : ∃ s1, app1.heap[stream]? = some s1 := by
      by_cases e : stream = root
      · subst e; exact ⟨_, hroot1⟩
      · exact ⟨s, by rw [hother1 stream e hstream]; exact hs⟩
    obtain ⟨s1, hs1⟩ := hs1
    obtain ⟨r, s2, hpub, hnew, hlinks, hindex, hother, _⟩ :=
      OnWrite_publish_defined u.1 stream (some root) major minor
        { v := link_values u.2, is_complete := false, app := app1 } r1 s1 hroot1 hs1
    refine ⟨r, hlast, hpub, ?_⟩
    have hkeep : ∀ (l : Nat) (x : subscription_stream_t), app1.heap[l]? = some x →
        ∃ x1, r.app.heap[l]? = some x1 ∧ x1.links = x.links ∧ x1.index = x.index := by
      intro l x hx
      by_cases e : l = stream
      · subst e
        have : x = s1 := Option.some.inj (hx.symm.trans hs1)
        subst this
        exact ⟨s2, hnew, hlinks, hindex⟩
      · exact ⟨x, by rw [hother l e]; exact hx, rfl, rfl⟩
    obtain ⟨r2, hr2, hr2l, _⟩ := hkeep root r1 hroot1
    obtain ⟨o2, ho2, ho2l, ho2i⟩ := hkeep new obj hnew1
    refine ⟨r2, new, o2, hr2, ?_, ?_, ho2, by rw [ho2i]; exact hoi, by rw [ho2l, hol]; rfl⟩
    · rw [hr2l, hlen1]; omega
    · rw [hr2l]; exact hget1



theorem Initialize_streams_single (CreateItemStream : String → Option Int) (instrument : String)
    (token : Int) (hne : instrument.isEmpty = false)
    (hreg : CreateItemStream instrument = some token) :
    chain_tip (Initialize_streams CreateItemStream [instrument] chainy_t.empty) 0 0 := by
  refine ⟨{ subscription_stream_t.fresh with
      links := [some 0], item_name := instrument, token := token }, 0,
    { subscription_stream_t.fresh with
      links := [some 0], item_name := instrument, token := token }, ?_, rfl, rfl, ?_,
    rfl, rfl⟩ <;>
  simp [Initialize_streams, hne, hreg, chainy_t.make_shared, chainy_t.store,
    chainy_t.register, chainy_t.insert, chainy_t.find, chainy_t.empty]

theorem deliver_along_tip (root major minor : Nat) :
    ∀ (us : List (consumer_env × List RsslFieldEntry)) (app : chainy_t) (n : Nat),
      chain_tip app root n → (∀ u ∈ us, delivered u) →
      ∃ app1, deliver_along root major minor app us = some app1 ∧
        chain_tip app1 root (n + us.countP (fun u => decide (next_links u.2 ≠ []))) := by
  intro us
  induction us with
  | nil => intro app n h _; exact ⟨app, rfl, h⟩
  | cons u us ih =>
    intro app n htip hus
    obtain ⟨stream, r, hlast, hwrite, htip1⟩ :=
      OnWrite_tip u app root n major minor (hus u (List.mem_cons_self _ _)) htip
    obtain ⟨app1, hrun, htip2⟩ :=
      ih r.app _ htip1 (fun v hv => hus v (List.mem_cons_of_mem _ hv))
    refine ⟨app1, ?_, ?_⟩
    · simp only [deliver_along, hlast, hwrite]
      exact hrun
    · by_cases hnl : next_links u.2 = []
      · rw [if_pos hnl] at htip2
        simpa [List.countP_cons, hnl] using htip2
      · rw [if_neg hnl] at htip2
        have e : 1 + n + List.countP (fun u => decide (next_links u.2 ≠ [])) us =
            n + List.countP (fun u => decide (next_links u.2 ≠ [])) (u :: us) := by
          simp [List.countP_cons, hnl]; omega
        rw [← e]
        exact htip2

/-- C3, as the code has it: starting from a freshly initialised root-only chain, after any
sequence of processed updates delivered along the chain (each on the link that is last in the
chain when it arrives, every registration succeeding), and so in particular after one that ends
with a blank next-link, the chain has one link for the root plus one link for every update that
carried a non-blank next-link value; a value that was seen before counts again. -/
theorem chain_length_counts_updates (CreateItemStream : String → Option Int)
    (instrument : String) (token : Int) (major minor : Nat)
    (us : List (consumer_env × List RsslFieldEntry))
    (hne : instrument.isEmpty = false) (hreg : CreateItemStream instrument = some token)
    (hus : ∀ u ∈ us, delivered u) :
    ∃ app1,
      deliver_along 0 major minor
        (Initialize_streams CreateItemStream [instrument] chainy_t.empty) us = some app1 ∧
      (app1.chain 0).length = us.countP (fun u => decide (next_links u.2 ≠ [])) + 1 := by
  obtain ⟨app1, hrun, r, last, s, hr, hlen, _⟩ :=
    deliver_along_tip 0 major minor us _ 0
      (Initialize_streams_single CreateItemStream instrument token hne hreg) hus
  refine ⟨app1, hrun, ?_⟩
  simp only [chainy_t.chain, hr, hlen]
  omega

theorem delivered_ok (fields : List RsslFieldEntry) (h : ∀ e ∈ fields, decodes e) :
    delivered (consumer_env.ok, fields) :=
  ⟨rfl, rfl, rfl, h, fun _ => ⟨7, rfl⟩⟩

/-- Witness for the amended C3: the updates `A`, `A`, blank give a chain of three links. -/
theorem chain_length_counts_updates_witness :
    ∃ app1,
      deliver_along 0 14 1
        (Initialize_streams consumer_env.ok.CreateItemStream ["FOO"] chainy_t.empty)
        repeated_updates = some app1 ∧
      (app1.chain 0).length = 2 + 1 :=
  chain_length_counts_updates consumer_env.ok.CreateItemStream "FOO" 7 14 1 repeated_updates
    (by decide) rfl
    (by
      intro u hu
      simp only [repeated_updates, List.mem_cons, List.mem_singleton, List.not_mem_nil,
        or_false] at hu
      rcases hu with rfl | rfl | rfl <;> exact delivered_ok _ (by decide))

/-- Counterexample to C3 as stated: the updates `A`, `A`, blank are delivered along the chain
of a fresh root and end with a blank next-link; one distinct non-blank next-link value was
followed, yet the chain has three links, not two. -/
theorem chain_length_not_distinct_count :
    ∃ app1,
      deliver_along 0 14 1
        (Initialize_streams consumer_env.ok.CreateItemStream ["FOO"] chainy_t.empty)
        repeated_updates = some app1 ∧
      (app1.chain 0).length = 3 ∧
      ((repeated_updates.flatMap (fun u => next_links u.2)).dedup).length + 1 = 2 :=
  ⟨_, rfl, rfl, by decide⟩

/-! ### CheckTrigger without a decoded timestamp -/

theorem CheckTrigger_fields_first (fields : List RsslFieldEntry) :
    CheckTrigger_fields fields =
      match first_timestamp fields with
      | none => false
      | some e => decide (e.rc = RsslRet.RSSL_RET_SUCCESS) := by
  induction fields with
  | nil => rfl
  | cons e rest ih =>
    unfold CheckTrigger_fields first_timestamp
    by_cases h : e.fieldId = 238 ∨ e.fieldId = 815
    · simp only [h, if_true, List.find?_cons, decide_True]
      by_cases hb : e.rc = RsslRet.RSSL_RET_BLANK_DATA
      · simp [hb]
      · by_cases hs : e.rc = RsslRet.RSSL_RET_SUCCESS
        · simp [hs]
        · simp [hb, hs]
    · simp only [h, if_false, List.find?_cons, decide_False]
      exact ih

/-- C11: when the first timestamp field (id 238 or 815) of an update does not decode
successfully, because it is blank or because decoding fails, or when the update has no
timestamp field at all, `CheckTrigger` returns false, whatever the decoder set-up does; and
however often the update is presented again, no call returns true. -/
theorem CheckTrigger_blank_never_triggers (fields : List RsslFieldEntry)
    (h : first_timestamp fields = none ∨
      ∃ e, first_timestamp fields = some e ∧ e.rc ≠ RsslRet.RSSL_RET_SUCCESS) :
    (∀ dec, CheckTrigger dec fields = false) ∧
    ∀ decs : List rssl_decoder, ∀ b ∈ decs.map (fun dec => CheckTrigger dec fields),
      b = false := by
  have hf : CheckTrigger_fields fields = false := by
    rw [CheckTrigger_fields_first]
    rcases h with h | ⟨e, h, he⟩
    · rw [h]
    · rw [h]; simp [he]
  have hall : ∀ dec, CheckTrigger dec fields = false := by
    intro dec
    unfold CheckTrigger
    rw [hf]
    simp
  refine ⟨hall, ?_⟩
  intro decs b hb
  rcases List.mem_map.mp hb with ⟨dec, _, e⟩
  rw [← e]
  exact hall dec

/-- Witness for C11: a blank timestamp after another field, presented three times. -/
theorem CheckTrigger_blank_never_triggers_witness :
    (∀ dec, CheckTrigger dec
      [{ fieldId := 22, rc := RsslRet.RSSL_RET_SUCCESS, rssl_buffer := "x" },
        blank_next_link, next_link "16:00"] = false) ∧
    ∀ decs : List rssl_decoder, ∀ b ∈ decs.map (fun dec => CheckTrigger dec
      [{ fieldId := 22, rc := RsslRet.RSSL_RET_SUCCESS, rssl_buffer := "x" },
        blank_next_link, next_link "16:00"]), b = false :=
  CheckTrigger_blank_never_triggers
    [{ fieldId := 22, rc := RsslRet.RSSL_RET_SUCCESS, rssl_buffer := "x" },
      blank_next_link, next_link "16:00"]
    (Or.inr ⟨blank_next_link, rfl, by decide⟩)

/-! ### The payload of an update -/

theorem link_values_eq_designated (fields : List RsslFieldEntry) :
    link_values fields = designated_values fields := by
  unfold link_values designated_values
  congr 1
  apply List.filter_congr
  intro e _
  by_cases h1 : e.rc = RsslRet.RSSL_RET_BLANK_DATA <;>
    by_cases h2 : e.rssl_buffer.length = 0 <;>
    simp [is_value_field, h1, h2]

/-- What the last part of `OnWrite` hands to the encoder, when the encoder does not fail. -/
theorem OnWrite_publish_written (env : consumer_env) (stream : Nat) (parent : Option Nat)
    (major minor : Nat) (st : fields_state) (r : OnWrite_result)
    (h : OnWrite_publish env stream parent major minor st = some r)
    (henc : ∀ v m, env.rssl_encode v m = true) :
    ∃ msg, r.written = some msg ∧ msg.payload = Payload.symbol_list st.v ∧
      msg.refresh_complete = st.is_complete := by
  unfold OnWrite_publish at h
  split at h
  · simp only [WriteRaw, henc, if_true] at h
    generalize hc : (if _ = 0 then env.rsslPayloadEntryCreate else _) = c at h
    by_cases hc0 : c = 0
    · rw [if_pos hc0] at h; cases h; exact ⟨_, rfl, rfl, rfl⟩
    · rw [if_neg hc0] at h
      split at h
      · cases h; exact ⟨_, rfl, rfl, rfl⟩
      · split at h
        · cases h; exact ⟨_, rfl, rfl, rfl⟩
        · cases h; exact ⟨_, rfl, rfl, rfl⟩
  · cases h

/-- C12: for every update whose decoder set-up succeeds and in which no designated field fails
to decode, the payload list `OnWrite` passes to `WriteRaw` is exactly the sequence, in encounter
order, of the values of the entries with field id in `240..253` or `800..813` whose value is
neither blank nor of length zero.  Blank and zero-length designated fields do not stop the
update before `WriteRaw`, and fields with other ids contribute nothing. -/
theorem OnWrite_payload (env : consumer_env) (app : chainy_t) (stream : Nat) (major minor : Nat)
    (fields : List RsslFieldEntry) (r : OnWrite_result)
    (h : OnWrite env app stream major minor fields = some r)
    (h1 : env.decoder.rsslSetDecodeIteratorRWFVersion = true)
    (h2 : env.decoder.rsslSetDecodeIteratorBuffer = true)
    (h3 : env.decoder.rsslDecodeFieldList = true)
    (hfields : ∀ e ∈ fields, decodes e)
    (henc : ∀ v m, env.rssl_encode v m = true) :
    ∃ msg, r.written = some msg ∧
      msg.payload = Payload.symbol_list (designated_values fields) := by
  obtain ⟨s0, parent, hs0, hhead, _⟩ := OnWrite_cases env app stream major minor fields r h
  rw [OnWrite_decoded env app stream major minor fields s0 parent hs0 hhead h1 h2 h3 hfields] at h
  cases hl : link_all env parent s0.index (next_links fields) app with
  | none => rw [hl] at h; cases h
  | some app1 =>
    rw [hl] at h
    simp only [Option.some_bind] at h
    obtain ⟨msg, hw, hp, _⟩ := OnWrite_publish_written env stream parent major minor _ r h henc
    exact ⟨msg, hw, by rw [hp, link_values_eq_designated]⟩

/-- Witness for C12: short and long link fields, a blank one, a zero-length one and a field
with another id, on the root of `FOO → FOO.1 → FOO.2`. -/
theorem OnWrite_payload_witness :
    ∃ r, OnWrite consumer_env.ok FOO_store 0 14 1
        [{ fieldId := 240, rc := RsslRet.RSSL_RET_SUCCESS, rssl_buffer := "a" },
         { fieldId := 241, rc := RsslRet.RSSL_RET_BLANK_DATA, rssl_buffer := "" },
         { fieldId := 22, rc := RsslRet.RSSL_RET_SUCCESS, rssl_buffer := "x" },
         { fieldId := 800, rc := RsslRet.RSSL_RET_SUCCESS, rssl_buffer := "b" },
         { fieldId := 801, rc := RsslRet.RSSL_RET_SUCCESS, rssl_buffer := "" },
         blank_next_link] = some r ∧
      ∃ msg, r.written = some msg ∧ msg.payload = Payload.symbol_list ["a", "b"] :=
  ⟨_, rfl,
    OnWrite_payload consumer_env.ok FOO_store 0 14 1
      [{ fieldId := 240, rc := RsslRet.RSSL_RET_SUCCESS, rssl_buffer := "a" },
       { fieldId := 241, rc := RsslRet.RSSL_RET_BLANK_DATA, rssl_buffer := "" },
       { fieldId := 22, rc := RsslRet.RSSL_RET_SUCCESS, rssl_buffer := "x" },
       { fieldId := 800, rc := RsslRet.RSSL_RET_SUCCESS, rssl_buffer := "b" },
       { fieldId := 801, rc := RsslRet.RSSL_RET_SUCCESS, rssl_buffer := "" },
       blank_next_link] _ rfl rfl rfl rfl (by decide) (fun _ _ => rfl)⟩

/-! ### Replaying a blank-terminator update -/

/-- When every next-link field of an update is blank or of length zero, the field loop of
`OnWrite` creates no link and cuts no chain: it changes nothing but `v`. -/
theorem OnWrite_fields_blank (env : consumer_env) (parent : Option Nat) (index : Nat) :
    ∀ (fields : List RsslFieldEntry) (st : fields_state),
      (∀ e ∈ fields, is_next_link_field e.fieldId = true →
        (e.rc = RsslRet.RSSL_RET_BLANK_DATA ∨ e.rssl_buffer.length = 0)) →
      ∃ b v, OnWrite_fields env parent index fields st = some (b, { st with v := v }) := by
  intro fields
  induction fields with
  | nil => intro st _; exact ⟨true, st.v, rfl⟩
  | cons e rest ih =>
    intro st h
    have hrest : ∀ e ∈ rest, is_next_link_field e.fieldId = true →
        (e.rc = RsslRet.RSSL_RET_BLANK_DATA ∨ e.rssl_buffer.length = 0) :=
      fun e he => h e (List.mem_cons_of_mem _ he)
    unfold OnWrite_fields
    by_cases hv : is_value_field e.fieldId = true
    · simp only [hv, if_true]
      by_cases hb : e.rc = RsslRet.RSSL_RET_BLANK_DATA ∨ e.rssl_buffer.length = 0
      · simp only [hb, if_true]
        exact ih st hrest
      · simp only [hb, if_false]
        by_cases hs : e.rc ≠ RsslRet.RSSL_RET_SUCCESS
        · rw [if_pos hs]
          exact ⟨false, st.v, rfl⟩
        · rw [if_neg hs]
          obtain ⟨b, v, hbv⟩ := ih { st with v := st.v ++ [e.rssl_buffer] } hrest
          exact ⟨b, v, hbv⟩
    · simp only [hv, if_false]
      by_cases hn : is_next_link_field e.fieldId = true
      · have hb := h e (List.mem_cons_self _ _) hn
        simp only [hn, hb, if_true]
        exact ih st hrest
      · simp only [hn, if_false]
        exact ih st hrest

/-- An update whose next-link fields are all blank or of length zero, on a link whose parent
can be dereferenced: `OnWrite` is defined and changes at most the handles of the link. -/
theorem OnWrite_blank_defined (env : consumer_env) (app : chainy_t) (stream : Nat)
    (major minor : Nat) (fields : List RsslFieldEntry) (s0 par : subscription_stream_t)
    (root : Nat)
    (hs0 : app.heap[stream]? = some s0) (hhead : s0.links.head? = some (some root))
    (hpar : app.heap[root]? = some par)
    (hblank : ∀ e ∈ fields, is_next_link_field e.fieldId = true →
      (e.rc = RsslRet.RSSL_RET_BLANK_DATA ∨ e.rssl_buffer.length = 0)) :
    ∃ r s1, OnWrite env app stream major minor fields = some r ∧
      r.app.heap[stream]? = some s1 ∧ s1.links = s0.links ∧ s1.index = s0.index ∧
      (∀ l, l ≠ stream → r.app.heap[l]? = app.heap[l]?) := by
  unfold OnWrite
  rw [hs0]
  simp only
  cases hlinks : s0.links with
  | nil => rw [hlinks] at hhead; cases hhead
  | cons p tl =>
    rw [hlinks] at hhead
    simp only [List.head?_cons, Option.some.injEq] at hhead
    subst hhead
    simp only
    by_cases h1 : env.decoder.rsslSetDecodeIteratorRWFVersion = true
    · by_cases h2 : env.decoder.rsslSetDecodeIteratorBuffer = true
      · by_cases h3 : env.decoder.rsslDecodeFieldList = true
        · simp only [h1, h2, h3, Bool.not_true, Bool.false_eq_true, if_false]
          obtain ⟨b, v, hbv⟩ := OnWrite_fields_blank env (some root) s0.index fields
            { v := [], is_complete := false, app := app } hblank
          rw [hbv]
          cases b with
          | false => exact ⟨_, s0, rfl, hs0, hlinks, rfl, fun _ _ => rfl⟩
          | true =>
            simp only
            obtain ⟨r, s1, hpub, hnew, hl, hi, hother, _⟩ :=
              OnWrite_publish_defined env stream (some root) major minor
                { v := v, is_complete := false, app := app } par s0 hpar hs0
            exact ⟨r, s1, hpub, hnew, by rw [hl, hlinks], hi, hother⟩
        · simp only [h1, h2, h3, Bool.not_true, Bool.false_eq_true, if_false, Bool.not_false,
            if_true]
          exact ⟨_, s0, rfl, hs0, hlinks, rfl, fun _ _ => rfl⟩
      · simp only [h1, h2, Bool.not_true, Bool.false_eq_true, if_false, Bool.not_false,
          if_true]
        exact ⟨_, s0, rfl, hs0, hlinks, rfl, fun _ _ => rfl⟩
    · simp only [h1, Bool.not_false, if_true]
      exact ⟨_, s0, rfl, hs0, hlinks, rfl, fun _ _ => rfl⟩

/-- C14: replaying a blank-terminator update.  For every state, every link whose parent can
be dereferenced and every blank-terminator update, `OnWrite` is defined on the state and again
on the state it leaves, and after the second application every chain has the same link array,
and so the same length, as after the first. -/
theorem OnWrite_blank_replay (env : consumer_env) (app : chainy_t) (stream : Nat)
    (major minor : Nat) (fields : List RsslFieldEntry) (s0 par : subscription_stream_t)
    (root : Nat)
    (hs0 : app.heap[stream]? = some s0) (hhead : s0.links.head? = some (some root))
    (hpar : app.heap[root]? = some par) (hblank : blank_terminator fields) :
    ∃ r1 r2, OnWrite env app stream major minor fields = some r1 ∧
      OnWrite env r1.app stream major minor fields = some r2 ∧
      (∀ p, r2.app.chain p = r1.app.chain p) ∧
      (∀ p, (r2.app.chain p).length = (r1.app.chain p).length) := by
  obtain ⟨r1, s1, hw1, hs1, hl1, _, hother1⟩ :=
    OnWrite_blank_defined env app stream major minor fields s0 par root hs0 hhead hpar hblank.2
  have hpar1 : ∃ par1, r1.app.heap[root]? = some par1 := by
    by_cases e : root = stream
    · subst e; exact ⟨s1, hs1⟩
    · exact ⟨par, by rw [hother1 root e]; exact hpar⟩
  obtain ⟨par1, hpar1⟩ := hpar1
  obtain ⟨r2, s2, hw2, hs2, hl2, _, hother2⟩ :=
    OnWrite_blank_defined env r1.app stream major minor fields s1 par1 root hs1
      (by rw [hl1]; exact hhead) hpar1 hblank.2
  have hchain : ∀ p, r2.app.chain p = r1.app.chain p := by
    intro p
    unfold chainy_t.chain
    by_cases e : p = stream
    · subst e
      simp only [hs1, hs2, hl2]
    · rw [hother2 p e]
  exact ⟨r1, r2, hw1, hw2, hchain, fun p => by rw [hchain p]⟩

/-- Witness for C14: the blank-terminator update on the last link of `FOO → FOO.1 → FOO.2`,
applied twice. -/
theorem OnWrite_blank_replay_witness :
    ∃ r1 r2, OnWrite consumer_env.ok FOO_store 2 14 1 [blank_next_link] = some r1 ∧
      OnWrite consumer_env.ok r1.app 2 14 1 [blank_next_link] = some r2 ∧
      (∀ p, r2.app.chain p = r1.app.chain p) ∧
      (∀ p, (r2.app.chain p).length = (r1.app.chain p).length) :=
  OnWrite_blank_replay consumer_env.ok FOO_store 2 14 1 [blank_next_link] _ _ 0 rfl rfl rfl
    ⟨⟨blank_next_link, by decide, rfl⟩, by decide⟩

/-! ### OnRequest: failures -/

/-- The loop of `OnRequest` over links whose parts encode and are sent: the parts are emitted
and the loop goes on with the remaining links. -/
theorem OnRequest_loop_prefix (env : provider_env) (app : chainy_t) (req : Request)
    (rest : List (Option Nat)) (hrest : rest ≠ []) (k : Nat)
    (henc : ∀ v m, m.partNum < k → env.rssl_encode v m = true)
    (hsend : ∀ i b f, i < k → env.SendReply i b f = true) :
    ∀ (pre : List (Option Nat)) (n : Nat), n + pre.length = k →
      (∀ x ∈ pre, ∃ p st, x = some p ∧ app.heap[p]? = some st) →
      OnRequest_loop env app req (pre ++ rest) n =
        ((pre.enumFrom n).map (fun il => response_part app req (k + rest.length) il.1 il.2) ++
            (OnRequest_loop env app req rest k).1,
          (OnRequest_loop env app req rest k).2) := by
  intro pre
  induction pre with
  | nil =>
    intro n hn _
    simp only [List.length_nil, Nat.add_zero] at hn
    subst hn
    simp
  | cons x pre ih =>
    intro n hn hx
    obtain ⟨p, st, hp, hst⟩ := hx x (List.mem_cons_self _ _)
    have hpre : ∀ x ∈ pre, ∃ p st, x = some p ∧ app.heap[p]? = some st :=
      fun y hy => hx y (List.mem_cons_of_mem _ hy)
    simp only [List.length_cons] at hn
    have ih2 := ih (n + 1) (by omega) hpre
    subst hp
    have hne : (pre ++ rest).isEmpty = false := by
      cases pre <;> cases rest <;> simp_all
    have hlt : n < k := by omega
    have hdec : decide (n + 1 = k + rest.length) = false := by
      have : 0 < rest.length := List.length_pos.mpr hrest
      simp only [decide_eq_false_iff_not]
      omega
    have henc3 : ∀ (c f : Bool) (x : Payload), env.rssl_encode req.rwf_version
        { streamId := req.token, serviceId := req.service_id, name := req.item_name,
          partNum := n, clear_cache := c, refresh_complete := f, payload := x } = true :=
      fun _ _ _ => henc _ _ hlt
    have hstep : ∀ tail : List (Option Nat), tail.isEmpty = false →
        OnRequest_loop env app req (some p :: tail) n =
          (response_part app req (k + rest.length) n (some p) ::
              (OnRequest_loop env app req tail (n + 1)).1,
            (OnRequest_loop env app req tail (n + 1)).2) := by
      intro tail ht
      simp only [OnRequest_loop, Option.some_bind, hst, WriteRaw, ht, henc3,
        hsend _ _ _ hlt, if_true, response_part, chainy_t.snapshot_of, hdec]
    rw [List.cons_append, hstep _ hne, ih2]
    simp [List.enumFrom_cons]

/-- The iteration of the loop of `OnRequest` for a link whose part cannot be encoded. -/
theorem OnRequest_loop_close (env : provider_env) (app : chainy_t) (req : Request)
    (l : Option Nat) (post : List (Option Nat)) (n : Nat) (stream : subscription_stream_t)
    (hl : l.bind (fun p => app.heap[p]?) = some stream)
    (hfail : ∀ v m, m.partNum = n → env.rssl_encode v m = false) :
    OnRequest_loop env app req (l :: post) n =
      if env.WriteRawClose (some n) req.close_recover then
        if env.SendReply n (Buffer.close req.close_recover) post.isEmpty then
          (Sent.SendReply req.handle req.token (Buffer.close req.close_recover) post.isEmpty ::
              (OnRequest_loop env app req post (n + 1)).1,
            (OnRequest_loop env app req post (n + 1)).2)
        else ([], Outcome.returned false)
      else ([], Outcome.returned false) := by
  have henc : ∀ (c f : Bool) (x : Payload), env.rssl_encode req.rwf_version
      { streamId := req.token, serviceId := req.service_id, name := req.item_name,
        partNum := n, clear_cache := c, refresh_complete := f, payload := x } = false :=
    fun _ _ _ => hfail _ _ rfl
  simp only [OnRequest_loop, hl, WriteRaw, henc, Bool.false_eq_true, if_false,
    Request.close_recover]
  by_cases hc : env.WriteRawClose (some n) (req.close RsslStreamState.RSSL_STREAM_CLOSED_RECOVER
      RsslStateCode.RSSL_SC_ERROR kErrorInternal) = true
  · simp only [hc, if_true]
  · simp only [hc, if_false, Bool.false_eq_true]

/-- The iteration of the loop of `OnRequest` for a link whose send fails. -/
theorem OnRequest_loop_send_fails (env : provider_env) (app : chainy_t) (req : Request)
    (l : Option Nat) (post : List (Option Nat)) (n : Nat) (stream : subscription_stream_t)
    (hl : l.bind (fun p => app.heap[p]?) = some stream)
    (hs : ∀ b f, env.SendReply n b f = false) :
    OnRequest_loop env app req (l :: post) n = ([], Outcome.returned false) := by
  simp only [OnRequest_loop, hl, hs, Bool.false_eq_true, if_false]
  split <;> rfl

/-- C15: a request on a known instrument whose first parts, for the links `pre`, are encoded
and sent.  If the part for the next link cannot be encoded: when the closed-recoverable close
can be encoded and sent, that close is the message sent for the part; when the close cannot
be encoded either, `OnRequest` returns false and nothing is sent for the part.  And if the
send for the part fails, `OnRequest` returns false at once. -/
theorem OnRequest_encode_failure (env : provider_env) (app : chainy_t) (req : Request)
    (root : Nat) (s stream : subscription_stream_t) (pre post : List (Option Nat))
    (l : Option Nat)
    (hfind : app.find req.item_name = some root) (hroot : app.heap[root]? = some s)
    (hlinks : s.links = pre ++ l :: post)
    (hpre : ∀ x ∈ pre, ∃ p st, x = some p ∧ app.heap[p]? = some st)
    (hl : l.bind (fun p => app.heap[p]?) = some stream)
    (henc : ∀ v m, m.partNum < pre.length → env.rssl_encode v m = true)
    (hsend : ∀ i b f, i < pre.length → env.SendReply i b f = true) :
    ((∀ v m, m.partNum = pre.length → env.rssl_encode v m = false) →
      (env.WriteRawClose (some pre.length) req.close_recover = true →
        env.SendReply pre.length (Buffer.close req.close_recover) post.isEmpty = true →
        OnRequest env app req =
          (parts_before app req s.links.length pre ++
            Sent.SendReply req.handle req.token (Buffer.close req.close_recover) post.isEmpty ::
              (OnRequest_loop env app req post (pre.length + 1)).1,
            (OnRequest_loop env app req post (pre.length + 1)).2)) ∧
      (env.WriteRawClose (some pre.length) req.close_recover = false →
        OnRequest env app req =
          (parts_before app req s.links.length pre, Outcome.returned false))) ∧
    ((∀ b f, env.SendReply pre.length b f = false) →
      OnRequest env app req =
        (parts_before app req s.links.length pre, Outcome.returned false)) := by
  have hmain := OnRequest_loop_prefix env app req (l :: post) (List.cons_ne_nil _ _) pre.length
    henc hsend pre 0 (by omega) hpre
  have hlen : pre.length + (l :: post).length = s.links.length := by
    rw [hlinks, List.length_append]
  rw [hlen] at hmain
  have hreq : OnRequest env app req =
      (parts_before app req s.links.length pre ++
          (OnRequest_loop env app req (l :: post) pre.length).1,
        (OnRequest_loop env app req (l :: post) pre.length).2) := by
    unfold OnRequest
    simp only [hfind, hroot]
    rw [← hlinks] at hmain
    rw [hmain]
    rfl
  refine ⟨fun hfail => ⟨fun hclose hs => ?_, fun hclose => ?_⟩, fun hs => ?_⟩
  · rw [hreq, OnRequest_loop_close env app req l post pre.length stream hl hfail, hclose, hs]
    rfl
  · rw [hreq, OnRequest_loop_close env app req l post pre.length stream hl hfail, hclose]
    simp
  · rw [hreq, OnRequest_loop_send_fails env app req l post pre.length stream hl hs]
    simp

/-- Witness for C15: on `FOO → FOO.1 → FOO.2` the part for `FOO.1` cannot be encoded; the
message sent for part 1 is the closed-recoverable close. -/
theorem OnRequest_encode_failure_witness :
    (OnRequest (provider_env.encode_fails_at 1) FOO_store (request_for "FOO")).1[1]? =
      some (Sent.SendReply 9 5
        (Buffer.close
          { rwf_version := 14, token := 5, service_id := 1, item_name := "FOO",
            use_attribinfo_in_updates := true,
            stream_state := RsslStreamState.RSSL_STREAM_CLOSED_RECOVER,
            status_code := RsslStateCode.RSSL_SC_ERROR, status_text := "Internal error." })
        false) := by
  have h := ((OnRequest_encode_failure (provider_env.encode_fails_at 1) FOO_store
    (request_for "FOO") 0 _ _ [some 0] [some 2] (some 1) (by decide) rfl rfl
    (by
      intro x hx
      simp only [List.mem_singleton] at hx
      subst hx
      exact ⟨0, _, rfl, rfl⟩)
    rfl
    (by
      intro v m hm
      simp only [provider_env.encode_fails_at, List.length_singleton, bne_iff_ne, ne_eq]
      simp only [List.length_singleton] at hm
      omega)
    (fun _ _ _ _ => rfl)).1
    (by
      intro v m hm
      simp only [provider_env.encode_fails_at, List.length_singleton] at hm ⊢
      simp [hm])).1 rfl rfl
  rw [h]
  rfl

/-- C19: a close does not end the response in the code.  On `FOO → FOO.1 → FOO.2`, when the
part for the root cannot be encoded, `OnRequest` sends the closed-recoverable close with
`SendReply` and the final flag false, then goes on with the remaining links and sends the
refresh parts 1 and 2, the last one as the final message, and returns true. -/
theorem OnRequest_continues_after_close :
    OnRequest (provider_env.encode_fails_at 0) FOO_store (request_for "FOO") =
      ([ Sent.SendReply 9 5 (Buffer.close
            { rwf_version := 14, token := 5, service_id := 1, item_name := "FOO",
              use_attribinfo_in_updates := true,
              stream_state := RsslStreamState.RSSL_STREAM_CLOSED_RECOVER,
              status_code := RsslStateCode.RSSL_SC_ERROR,
              status_text := "Internal error." }) false,
         Sent.SendReply 9 5 (Buffer.refresh
            { streamId := 5, serviceId := 1, name := "FOO", partNum := 1, clear_cache := false,
              refresh_complete := false, payload := Payload.payload_entry_handle 101 }) false,
         Sent.SendReply 9 5 (Buffer.refresh
            { streamId := 5, serviceId := 1, name := "FOO", partNum := 2, clear_cache := false,
              refresh_complete := true, payload := Payload.payload_entry_handle 102 }) true ],
        Outcome.returned true) := by
  rfl

/-! ### Start-up failure -/

/-- C16: when a mandatory collaborator reports that it failed to initialise (and none throws),
`Initialize` returns false and `Start` spawns neither thread; but `Start` returns true all the
same, so `Run` does not return `EXIT_FAILURE`: it enters its wait for the two completion
signals, which no thread will give. -/
theorem Start_hides_failure (env : startup_env) (instruments : List String)
    (hfail : env.upa_Initialize = init_result.failed ∨
      env.consumer_Initialize = init_result.failed ∨
      env.provider_Initialize = init_result.failed)
    (hthrow : env.upa_Initialize ≠ init_result.threw ∧
      env.consumer_Initialize ≠ init_result.threw ∧
      env.provider_Initialize ≠ init_result.threw) :
    (Initialize env instruments).1 = false ∧
    (Start false env instruments).result = true ∧
    (Start false env instruments).consumer_thread = false ∧
    (Start false env instruments).provider_thread = false ∧
    Run false env instruments = Run_result.waits false false := by
  have hinit : (Initialize env instruments).1 = false := by
    unfold Initialize
    obtain ⟨h1, h2, h3⟩ := hthrow
    cases hu : env.upa_Initialize <;> cases hc : env.consumer_Initialize <;>
      cases hp : env.provider_Initialize <;> simp_all
  refine ⟨hinit, ?_, ?_, ?_, ?_⟩ <;> simp [Start, Run, hinit]

/-- Witness for C16: the UPA context fails to initialise. -/
theorem Start_hides_failure_witness :
    (Initialize startup_env.upa_fails ["FOO"]).1 = false ∧
    (Start false startup_env.upa_fails ["FOO"]).result = true ∧
    (Start false startup_env.upa_fails ["FOO"]).consumer_thread = false ∧
    (Start false startup_env.upa_fails ["FOO"]).provider_thread = false ∧
    Run false startup_env.upa_fails ["FOO"] = Run_result.waits false false :=
  Start_hides_failure startup_env.upa_fails ["FOO"] (Or.inl rfl)
    ⟨by decide, by decide, by decide⟩

/-! ### Initialize: the store it builds -/

theorem Initialize_streams_empty_line (CreateItemStream : String → Option Int)
    (instrument : String) (rest : List String) (app : chainy_t)
    (h : instrument.isEmpty = true) :
    Initialize_streams CreateItemStream (instrument :: rest) app =
      Initialize_streams CreateItemStream rest app := by
  simp [Initialize_streams, h]

theorem Initialize_streams_registered (CreateItemStream : String → Option Int)
    (instrument : String) (rest : List String) (app : chainy_t) (token : Int)
    (h : instrument.isEmpty = false) (hreg : CreateItemStream instrument = some token) :
    Initialize_streams CreateItemStream (instrument :: rest) app =
      Initialize_streams CreateItemStream rest
        (chainy_t.insert
          { app with heap := app.heap ++ [new_link app.heap.length 0 instrument token] }
          instrument app.heap.length) := by
  simp [Initialize_streams, h, hreg, chainy_t.make_shared, chainy_t.store, chainy_t.register,
    set_concat_length, new_link, subscription_stream_t.fresh]

theorem Initialize_streams_unregistered (CreateItemStream : String → Option Int)
    (instrument : String) (rest : List String) (app : chainy_t)
    (h : instrument.isEmpty = false) (hreg : CreateItemStream instrument = none) :
    Initialize_streams CreateItemStream (instrument :: rest) app =
      Initialize_streams CreateItemStream rest
        { app with heap := app.heap ++
          [{ subscription_stream_t.fresh with links := [some app.heap.length] }] } := by
  simp [Initialize_streams, h, hreg, chainy_t.make_shared, chainy_t.store, set_concat_length]

theorem find_eq_none_iff (app : chainy_t) (name : String) :
    app.find name = none ↔ name ∉ app.keys := by
  unfold chainy_t.find chainy_t.keys
  simp only [Option.map_eq_none', List.find?_eq_none, List.mem_map, not_exists, not_and]
  constructor
  · intro h it hit e
    exact h it hit (by simp [e])
  · intro h it hit e
    exact h it hit (by simpa using e)

theorem insert_keys (app : chainy_t) (instrument name : String) (stream : Nat) :
    name ∈ (app.insert instrument stream).keys ↔ name ∈ app.keys ∨ name = instrument := by
  unfold chainy_t.insert
  cases hf : app.find instrument with
  | none =>
    simp [chainy_t.keys]
  | some root =>
    simp only
    constructor
    · exact Or.inl
    · rintro (h | h)
      · exact h
      · subst h
        by_contra hn
        rw [(find_eq_none_iff app name).mpr hn] at hf
        cases hf

theorem insert_heap (app : chainy_t) (instrument : String) (stream : Nat) :
    (app.insert instrument stream).heap = app.heap := by
  unfold chainy_t.insert
  split <;> rfl

theorem insert_streams (app : chainy_t) (instrument : String) (stream : Nat) :
    ∀ it ∈ (app.insert instrument stream).streams_,
      it ∈ app.streams_ ∨ it = (instrument, stream) := by
  intro it hit
  unfold chainy_t.insert at hit
  split at hit
  · exact Or.inl hit
  · simpa using hit

/-- The keys `Initialize` adds: the non-empty lines whose registration succeeds. -/
theorem Initialize_streams_keys (CreateItemStream : String → Option Int) :
    ∀ (instruments : List String) (app : chainy_t) (name : String),
      name ∈ (Initialize_streams CreateItemStream instruments app).keys ↔
        name ∈ app.keys ∨ (name ∈ instruments ∧ name.isEmpty = false ∧
          (CreateItemStream name).isSome = true) := by
  intro instruments
  induction instruments with
  | nil => intro app name; simp [Initialize_streams]
  | cons instrument rest ih =>
    intro app name
    by_cases he : instrument.isEmpty = true
    · rw [Initialize_streams_empty_line _ _ _ _ he, ih]
      constructor
      · rintro (h | ⟨h1, h2, h3⟩)
        · exact Or.inl h
        · exact Or.inr ⟨List.mem_cons_of_mem _ h1, h2, h3⟩
      · rintro (h | ⟨h1, h2, h3⟩)
        · exact Or.inl h
        · rcases List.mem_cons.mp h1 with e | h1
          · subst e; rw [he] at h2; cases h2
          · exact Or.inr ⟨h1, h2, h3⟩
    · have he2 : instrument.isEmpty = false := by simpa using he
      cases hreg : CreateItemStream instrument with
      | none =>
        rw [Initialize_streams_unregistered _ _ _ _ he2 hreg, ih]
        constructor
        · rintro (h | ⟨h1, h2, h3⟩)
          · exact Or.inl h
          · exact Or.inr ⟨List.mem_cons_of_mem _ h1, h2, h3⟩
        · rintro (h | ⟨h1, h2, h3⟩)
          · exact Or.inl h
          · rcases List.mem_cons.mp h1 with e | h1
            · subst e; rw [hreg] at h3; cases h3
            · exact Or.inr ⟨h1, h2, h3⟩
      | some token =>
        rw [Initialize_streams_registered _ _ _ _ token he2 hreg, ih, insert_keys]
        constructor
        · rintro ((h | h) | ⟨h1, h2, h3⟩)
          · exact Or.inl h
          · subst h
            exact Or.inr ⟨List.mem_cons_self _ _, he2, by rw [hreg]; rfl⟩
          · exact Or.inr ⟨List.mem_cons_of_mem _ h1, h2, h3⟩
        · rintro (h | ⟨h1, h2, h3⟩)
          · exact Or.inl (Or.inl h)
          · rcases List.mem_cons.mp h1 with e | h1
            · exact Or.inl (Or.inr e)
            · exact Or.inr ⟨h1, h2, h3⟩

theorem root_only_append (app : chainy_t) (xs : List subscription_stream_t)
    (it : String × Nat) (h : root_only app it) :
    root_only { app with heap := app.heap ++ xs } it := by
  obtain ⟨s, hs, h1, h2, h3⟩ := h
  refine ⟨s, ?_, h1, h2, h3⟩
  show (app.heap ++ xs)[it.2]? = some s
  rw [List.getElem?_append_left (lt_of_heap_some hs)]
  exact hs

/-- Every chain `Initialize` stores is its root alone. -/
theorem Initialize_streams_root_only (CreateItemStream : String → Option Int) :
    ∀ (instruments : List String) (app : chainy_t),
      (∀ it ∈ app.streams_, root_only app it) →
      ∀ it ∈ (Initialize_streams CreateItemStream instruments app).streams_,
        root_only (Initialize_streams CreateItemStream instruments app) it := by
  intro instruments
  induction instruments with
  | nil => intro app h; exact h
  | cons instrument rest ih =>
    intro app h
    by_cases he : instrument.isEmpty = true
    · rw [Initialize_streams_empty_line _ _ _ _ he]
      exact ih app h
    · have he2 : instrument.isEmpty = false := by simpa using he
      cases hreg : CreateItemStream instrument with
      | none =>
        rw [Initialize_streams_unregistered _ _ _ _ he2 hreg]
        exact ih _ (fun it hit => root_only_append app _ it (h it hit))
      | some token =>
        rw [Initialize_streams_registered _ _ _ _ token he2 hreg]
        apply ih
        intro it hit
        rcases insert_streams _ _ _ it hit with h1 | h1
        · obtain ⟨s, hs, hrest⟩ := root_only_append app
            [new_link app.heap.length 0 instrument token] it (h it h1)
          exact ⟨s, by rw [insert_heap]; exact hs, hrest⟩
        · subst h1
          refine ⟨new_link app.heap.length 0 instrument token, ?_, rfl, rfl, rfl⟩
          rw [insert_heap]
          exact List.getElem?_concat_length _ _

theorem insert_keys_nodup (app : chainy_t) (instrument : String) (stream : Nat)
    (h : app.keys.Nodup) : (app.insert instrument stream).keys.Nodup := by
  unfold chainy_t.insert
  cases hf : app.find instrument with
  | some root => exact h
  | none =>
    have hn := (find_eq_none_iff app instrument).mp hf
    simp only [chainy_t.keys, List.map_append, List.map_cons, List.map_nil]
    rw [List.nodup_append]
    refine ⟨h, List.nodup_singleton _, ?_⟩
    intro x hx hx2
    simp only [List.mem_singleton] at hx2
    subst hx2
    exact hn hx

theorem Initialize_streams_keys_nodup (CreateItemStream : String → Option Int) :
    ∀ (instruments : List String) (app : chainy_t), app.keys.Nodup →
      (Initialize_streams CreateItemStream instruments app).keys.Nodup := by
  intro instruments
  induction instruments with
  | nil => intro app h; exact h
  | cons instrument rest ih =>
    intro app h
    by_cases he : instrument.isEmpty = true
    · rw [Initialize_streams_empty_line _ _ _ _ he]
      exact ih app h
    · have he2 : instrument.isEmpty = false := by simpa using he
      cases hreg : CreateItemStream instrument with
      | none =>
        rw [Initialize_streams_unregistered _ _ _ _ he2 hreg]
        exact ih _ h
      | some token =>
        rw [Initialize_streams_registered _ _ _ _ token he2 hreg]
        exact ih _ (insert_keys_nodup _ _ _ h)

theorem find_of_mem (app : chainy_t) (h : app.keys.Nodup) :
    ∀ it ∈ app.streams_, app.find it.1 = some it.2 := by
  unfold chainy_t.find chainy_t.keys at *
  generalize app.streams_ = l at h
  induction l with
  | nil => intro it hit; cases hit
  | cons x xs ih =>
    intro it hit
    simp only [List.map_cons, List.nodup_cons, List.mem_map, not_exists, not_and] at h
    rcases List.mem_cons.mp hit with e | hmem
    · subst e
      simp
    · have hne : ¬ x.1 = it.1 := fun e => h.1 it hmem e.symm
      have hb : (x.1 == it.1) = false := by simpa using hne
      simp only [List.find?_cons, hb]
      exact ih h.2 it hmem

/-- C17: when the UPA context, the consumer and the provider initialise, `Initialize` returns
true for every list of lines; the keys of the chain store are exactly the non-empty lines for
which `CreateItemStream` succeeds (empty lines and failed registrations add nothing and do not
fail the start-up), and every stored chain is its root alone, at position 0 with index 0. -/
theorem Initialize_key_set (env : startup_env) (instruments : List String)
    (h1 : env.upa_Initialize = init_result.ok) (h2 : env.consumer_Initialize = init_result.ok)
    (h3 : env.provider_Initialize = init_result.ok) :
    (Initialize env instruments).1 = true ∧
    (∀ name, name ∈ (Initialize env instruments).2.keys ↔
      (name ∈ instruments ∧ name.isEmpty = false ∧
        (env.CreateItemStream name).isSome = true)) ∧
    (∀ it ∈ (Initialize env instruments).2.streams_,
      (Initialize env instruments).2.find it.1 = some it.2 ∧
      (Initialize env instruments).2.chain it.2 = [some it.2] ∧
      root_only (Initialize env instruments).2 it) := by
  have hinit : Initialize env instruments =
      (true, Initialize_streams env.CreateItemStream instruments chainy_t.empty) := by
    simp [Initialize, h1, h2, h3]
  rw [hinit]
  refine ⟨rfl, ?_, ?_⟩
  · intro name
    rw [Initialize_streams_keys]
    simp [chainy_t.keys, chainy_t.empty]
  · intro it hit
    have hr := Initialize_streams_root_only env.CreateItemStream instruments chainy_t.empty
      (by intro it hit; simp [chainy_t.empty] at hit) it hit
    refine ⟨?_, ?_, hr⟩
    · exact find_of_mem _ (Initialize_streams_keys_nodup env.CreateItemStream instruments
        chainy_t.empty (by simp [chainy_t.keys, chainy_t.empty])) it hit
    · obtain ⟨s, hs, hl, _⟩ := hr
      simp only [chainy_t.chain, hs, hl]

/-- Witness for C17: an empty line, a name whose registration fails and a repeated name. -/
theorem Initialize_key_set_witness :
    (Initialize startup_env.ok ["FOO", "", "BAD", "BAR", "FOO"]).1 = true ∧
    (∀ name, name ∈ (Initialize startup_env.ok ["FOO", "", "BAD", "BAR", "FOO"]).2.keys ↔
      (name ∈ ["FOO", "", "BAD", "BAR", "FOO"] ∧ name.isEmpty = false ∧
        (startup_env.ok.CreateItemStream name).isSome = true)) ∧
    (∀ it ∈ (Initialize startup_env.ok ["FOO", "", "BAD", "BAR", "FOO"]).2.streams_,
      (Initialize startup_env.ok ["FOO", "", "BAD", "BAR", "FOO"]).2.find it.1 = some it.2 ∧
      (Initialize startup_env.ok ["FOO", "", "BAD", "BAR", "FOO"]).2.chain it.2 = [some it.2] ∧
      root_only (Initialize startup_env.ok ["FOO", "", "BAD", "BAR", "FOO"]).2 it) :=
  Initialize_key_set startup_env.ok ["FOO", "", "BAD", "BAR", "FOO"] rfl rfl rfl

/-! ### The invariant of the chains -/

theorem same_frame_refl (app : chainy_t) : same_frame app app :=
  ⟨rfl, rfl, fun _ s hs => ⟨s, hs, rfl, rfl, rfl⟩⟩

theorem same_frame_trans {a b c : chainy_t} (h1 : same_frame a b) (h2 : same_frame b c) :
    same_frame a c := by
  refine ⟨h2.1.trans h1.1, h2.2.1.trans h1.2.1, ?_⟩
  intro p s hs
  obtain ⟨s1, hs1, e1, e2, e3⟩ := h1.2.2 p s hs
  obtain ⟨s2, hs2, f1, f2, f3⟩ := h2.2.2 p s1 hs1
  exact ⟨s2, hs2, f1.trans e1, f2.trans e2, f3.trans e3⟩

theorem same_frame_back {app app1 : chainy_t} (h : same_frame app app1) (p : Nat)
    (s1 : subscription_stream_t) (hs1 : app1.heap[p]? = some s1) :
    ∃ s, app.heap[p]? = some s ∧ s1.item_name = s.item_name ∧ s1.index = s.index ∧
      s1.links = s.links := by
  have hlt : p < app.heap.length := by rw [← h.2.1]; exact lt_of_heap_some hs1
  obtain ⟨s2, hs2, e1, e2, e3⟩ := h.2.2 p _ (List.getElem?_eq_getElem hlt)
  have e : s2 = s1 := Option.some.inj (hs2.symm.trans hs1)
  subst e
  exact ⟨_, List.getElem?_eq_getElem hlt, e1, e2, e3⟩

theorem no_gaps_frame {app app1 : chainy_t} (h : same_frame app app1) (root : Nat)
    (hng : no_gaps app root) : no_gaps app1 root := by
  obtain ⟨r, hr, hhead, hpos⟩ := hng
  obtain ⟨r1, hr1, _, _, e3⟩ := h.2.2 root r hr
  refine ⟨r1, hr1, by rw [e3]; exact hhead, ?_⟩
  intro i hi
  rw [e3] at hi ⊢
  obtain ⟨q, t, hq, ht, hti⟩ := hpos i hi
  obtain ⟨t1, ht1, _, f2, _⟩ := h.2.2 q t ht
  exact ⟨q, t1, hq, ht1, f2.trans hti⟩

theorem valid_frame {app app1 : chainy_t} (h : same_frame app app1) (hv : valid app) :
    valid app1 := by
  constructor
  · intro p s1 hs1
    obtain ⟨s, hs, e1, e2, e3⟩ := same_frame_back h p s1 hs1
    obtain ⟨root, r, hhead, hr, hng, hb⟩ := hv.1 p s hs
    obtain ⟨r1, hr1, _, _, f3⟩ := h.2.2 root r hr
    refine ⟨root, r1, by rw [e3]; exact hhead, hr1, no_gaps_frame h root hng, ?_⟩
    rw [e1, e2, f3]
    exact hb
  · intro it hit
    rw [h.1] at hit
    obtain ⟨s, hs, hhead, hname⟩ := hv.2 it hit
    obtain ⟨s1, hs1, e1, _, e3⟩ := h.2.2 it.2 s hs
    exact ⟨s1, hs1, by rw [e3]; exact hhead, by rw [e1]; exact hname⟩

/-- A stream `x` is added at the end of the heap, and the root `R` is changed in its links
only: every position of the new link vector either is an old position with what it held, or
holds `x`, whose index is that position. -/
theorem valid_extend (app app1 : chainy_t) (R : Nat) (r r1 x : subscription_stream_t)
    (hv : valid app) (hR : app.heap[R]? = some r) (hng : no_gaps app R)
    (hst : app1.streams_ = app.streams_)
    (h1R : app1.heap[R]? = some r1) (h1n : app1.heap[app.heap.length]? = some x)
    (h1o : ∀ q, q ≠ R → q ≠ app.heap.length → app1.heap[q]? = app.heap[q]?)
    (hidx : r1.index = r.index) (hname : r1.item_name = r.item_name)
    (hhead : r1.links.head? = r.links.head?)
    (hlen : r.links.length ≤ r1.links.length)
    (hold : ∀ i, i < r1.links.length →
      (i < r.links.length ∧ r1.links[i]? = r.links[i]?) ∨
      (r1.links[i]? = some (some app.heap.length) ∧ x.index = i))
    (hxh : x.links.head? = some (some R))
    (hxb : x.item_name ≠ "" → 1 + x.index ≤ r1.links.length) :
    valid app1 ∧ no_gaps app1 R := by
  have hRlt := lt_of_heap_some hR
  have hRn : R ≠ app.heap.length := by omega
  -- every old stream is still there, with the same index
  have hkeep : ∀ (q : Nat) (t : subscription_stream_t), app.heap[q]? = some t →
      ∃ t1, app1.heap[q]? = some t1 ∧ t1.index = t.index ∧ t1.item_name = t.item_name ∧
        t1.links.head? = t.links.head? ∧ t.links.length ≤ t1.links.length ∧
        (q ≠ R → t1 = t) := by
    intro q t ht
    by_cases e : q = R
    · subst e
      have : t = r := Option.some.inj (ht.symm.trans hR)
      subst this
      exact ⟨r1, h1R, hidx, hname, hhead, hlen, fun h => absurd rfl h⟩
    · have hq := lt_of_heap_some ht
      exact ⟨t, by rw [h1o q e (by omega)]; exact ht, rfl, rfl, rfl, le_refl _, fun _ => rfl⟩
  have hngR : no_gaps app1 R := by
    obtain ⟨r', hr', hh', hpos⟩ := hng
    have : r' = r := Option.some.inj (hr'.symm.trans hR)
    subst this
    refine ⟨r1, h1R, by rw [hhead]; exact hh', ?_⟩
    intro i hi
    rcases hold i hi with ⟨hi2, e⟩ | ⟨e, hx⟩
    · obtain ⟨q, t, hq, ht, hti⟩ := hpos i hi2
      obtain ⟨t1, ht1, f1, _⟩ := hkeep q t ht
      exact ⟨q, t1, by rw [e]; exact hq, ht1, f1.trans hti⟩
    · exact ⟨app.heap.length, x, e, h1n, hx⟩
  have hngo : ∀ root, root ≠ R → no_gaps app root → no_gaps app1 root := by
    intro root hne hg
    obtain ⟨r', hr', hh', hpos⟩ := hg
    obtain ⟨t1, ht1, _, _, _, _, heq⟩ := hkeep root r' hr'
    rw [heq hne] at ht1
    refine ⟨r', ht1, hh', ?_⟩
    intro i hi
    obtain ⟨q, t, hq, ht, hti⟩ := hpos i hi
    obtain ⟨t2, ht2, f1, _⟩ := hkeep q t ht
    exact ⟨q, t2, hq, ht2, f1.trans hti⟩
  have hngall : ∀ root, no_gaps app root → no_gaps app1 root := by
    intro root hg
    by_cases e : root = R
    · subst e; exact hngR
    · exact hngo root e hg
  refine ⟨⟨?_, ?_⟩, hngR⟩
  · intro p s1 hs1
    by_cases ep : p = app.heap.length
    · subst ep
      have : s1 = x := Option.some.inj (hs1.symm.trans h1n)
      subst this
      exact ⟨R, r1, hxh, h1R, hngR, hxb⟩
    · have hp1 : ∃ s, app.heap[p]? = some s := by
        by_cases e : p = R
        · subst e; exact ⟨r, hR⟩
        · rw [h1o p e ep] at hs1; exact ⟨s1, hs1⟩
      obtain ⟨s, hs⟩ := hp1
      obtain ⟨s1', hs1', f1, f2, f3, _, _⟩ := hkeep p s hs
      have : s1' = s1 := Option.some.inj (hs1'.symm.trans hs1)
      subst this
      obtain ⟨root, r', hh, hr', hg, hb⟩ := hv.1 p s hs
      obtain ⟨r1', hr1', _, _, _, g4, _⟩ := hkeep root r' hr'
      refine ⟨root, r1', by rw [f3]; exact hh, hr1', hngall root hg, ?_⟩
      intro hn
      rw [f2] at hn
      rw [f1]
      exact le_trans (hb hn) g4
  · intro it hit
    rw [hst] at hit
    obtain ⟨s, hs, hh, hn⟩ := hv.2 it hit
    obtain ⟨s1, hs1, _, f2, f3, _, _⟩ := hkeep it.2 s hs
    exact ⟨s1, hs1, by rw [f3]; exact hh, by rw [f2]; exact hn⟩

theorem put_link_getElem_ne (links : List (Option Nat)) (index link_stream i : Nat)
    (h : i ≠ index) : (put_link links index link_stream)[i]? = links[i]? := by
  unfold put_link
  split
  · rename_i e
    subst e
    by_cases hi : i < links.length
    · rw [List.getElem?_append_left hi]
    · have h1 : links.length ≤ i := by omega
      have h2 : (links ++ [some link_stream]).length ≤ i := by
        simp only [List.length_append, List.length_singleton]; omega
      rw [List.getElem?_eq_none h1, List.getElem?_eq_none h2]
  · exact List.getElem?_set_ne (Ne.symm h)

theorem put_link_head (links : List (Option Nat)) (index link_stream : Nat)
    (h : links ≠ []) : (put_link links (1 + index) link_stream).head? = links.head? := by
  unfold put_link
  cases links with
  | nil => exact absurd rfl h
  | cons a tl =>
    split
    · rfl
    · rw [Nat.add_comm 1 index]; rfl

/-- The invariant is kept when a link is made whose registration fails. -/
theorem valid_link_unregistered (env : consumer_env) (R index : Nat) (link_name : String)
    (app : chainy_t) (hv : valid app) (hng : no_gaps app R)
    (hreg : env.CreateItemStream link_name = none) :
    ∃ app1, OnWrite_link env (some R) index link_name app = some app1 ∧ valid app1 ∧
      no_gaps app1 R ∧ ∀ r, app.heap[R]? = some r → app1.heap[R]? = some r := by
  obtain ⟨r, hR, hh, hpos⟩ := hng
  have hRlt := lt_of_heap_some hR
  refine ⟨_, OnWrite_link_unregistered env (some R) index link_name app hreg, ?_⟩
  have h1R : (app.heap ++ [{ subscription_stream_t.fresh with
      links := [some R], index := 1 + index }])[R]? = some r := by
    rw [List.getElem?_append_left hRlt]; exact hR
  have hve := valid_extend app
    { app with heap := app.heap ++ [{ subscription_stream_t.fresh with
        links := [some R], index := 1 + index }] }
    R r r { subscription_stream_t.fresh with links := [some R], index := 1 + index }
    hv hR ⟨r, hR, hh, hpos⟩ rfl h1R (List.getElem?_concat_length _ _)
    (by
      intro q _ hq
      show (app.heap ++ [_])[q]? = _
      by_cases hlt : q < app.heap.length
      · rw [List.getElem?_append_left hlt]
      · have h1 : app.heap.length ≤ q := by omega
        rw [List.getElem?_eq_none h1, List.getElem?_eq_none]
        simp only [List.length_append, List.length_singleton]; omega)
    rfl rfl rfl (le_refl _) (fun i hi => Or.inl ⟨hi, rfl⟩) rfl
    (fun h => absurd rfl h)
  refine ⟨hve.1, hve.2, ?_⟩
  intro r' hr'
  have : r' = r := Option.some.inj (hr'.symm.trans hR)
  subst this
  exact h1R

/-- The invariant is kept when a link is made and registered for a stream whose next position
is within the chain or just past its end. -/
theorem valid_link_registered (env : consumer_env) (R index : Nat) (link_name : String)
    (app : chainy_t) (token : Int) (r : subscription_stream_t) (hv : valid app)
    (hng : no_gaps app R) (hR : app.heap[R]? = some r) (hi : 1 + index ≤ r.links.length)
    (hreg : env.CreateItemStream link_name = some token) :
    ∃ app1 r1, OnWrite_link env (some R) index link_name app = some app1 ∧ valid app1 ∧
      no_gaps app1 R ∧ app1.heap[R]? = some r1 ∧ r.links.length ≤ r1.links.length := by
  obtain ⟨app1, hlink, h1R, h1n, h1o, hlen1⟩ :=
    OnWrite_link_registered_spec env R index link_name app token r hreg hR hi
  have hne : r.links ≠ [] := by
    intro e; rw [e] at hi; simp at hi
  have hst : app1.streams_ = app.streams_ := by
    rw [OnWrite_link_registered env R index link_name app token r hreg hR hi] at hlink
    cases hlink
    rfl
  have hplen : r.links.length ≤ (put_link r.links (1 + index) app.heap.length).length := by
    rw [put_link_length]; split <;> omega
  have hve := valid_extend app app1 R r
    { r with links := put_link r.links (1 + index) app.heap.length }
    (new_link R (1 + index) link_name token) hv hR hng hst h1R h1n
    (by
      intro q hq hq2
      by_cases hlt : q < app.heap.length
      · exact h1o q hq hlt
      · have h1 : app.heap.length ≤ q := by omega
        rw [List.getElem?_eq_none h1, List.getElem?_eq_none]
        omega)
    rfl rfl (put_link_head r.links index app.heap.length hne) hplen
    (by
      intro i hi2
      by_cases e : i = 1 + index
      · subst e
        exact Or.inr ⟨put_link_getElem r.links (1 + index) app.heap.length hi, rfl⟩
      · refine Or.inl ⟨?_, put_link_getElem_ne r.links (1 + index) app.heap.length i e⟩
        simp only [put_link_length] at hi2
        split at hi2 <;> omega)
    rfl
    (by
      intro _
      show 1 + (1 + index) ≤ (put_link r.links (1 + index) app.heap.length).length
      rw [put_link_length]
      split <;> omega)
  exact ⟨app1, _, hlink, hve.1, hve.2, h1R, hplen⟩

/-- When a link is made and registered without undefined behaviour, its position is within
the chain or just past its end. -/
theorem OnWrite_link_bound (env : consumer_env) (R index : Nat) (link_name : String)
    (app app1 : chainy_t) (token : Int) (r : subscription_stream_t)
    (hR : app.heap[R]? = some r) (hreg : env.CreateItemStream link_name = some token)
    (h : OnWrite_link env (some R) index link_name app = some app1) :
    1 + index ≤ r.links.length := by
  have hlt := lt_of_heap_some hR
  have hr2 : ∀ x : subscription_stream_t, (app.heap ++ [x])[R]? = some r := by
    intro x; rw [List.getElem?_append_left hlt]; exact hR
  simp only [OnWrite_link, chainy_t.make_shared, chainy_t.store, chainy_t.register, hreg,
    set_concat_length, List.getElem?_concat_length, Option.some_bind, hr2,
    Option.map_some'] at h
  by_cases e : 1 + index = r.links.length
  · omega
  · simp only [e, if_false] at h
    by_cases hlt2 : 1 + index < r.links.length
    · omega
    · simp only [hlt2, if_false] at h
      cases h

/-- The field loop of `OnWrite` keeps every property of the state that the creation of a link
keeps. -/
theorem OnWrite_fields_preserves (P : chainy_t → Prop) (env : consumer_env)
    (parent : Option Nat) (index : Nat)
    (hlink : ∀ name app app1, P app → OnWrite_link env parent index name app = some app1 →
      P app1) :
    ∀ (fields : List RsslFieldEntry) (st : fields_state) (b : Bool) (st1 : fields_state),
      P st.app → OnWrite_fields env parent index fields st = some (b, st1) → P st1.app := by
  intro fields
  induction fields with
  | nil =>
    intro st b st1 hP h
    simp only [OnWrite_fields, Option.some.injEq, Prod.mk.injEq] at h
    rw [← h.2]; exact hP
  | cons e rest ih =>
    intro st b st1 hP h
    unfold OnWrite_fields at h
    by_cases hv : is_value_field e.fieldId = true
    · rw [if_pos hv] at h
      by_cases hb : e.rc = RsslRet.RSSL_RET_BLANK_DATA ∨ e.rssl_buffer.length = 0
      · rw [if_pos hb] at h
        exact ih st b st1 hP h
      · rw [if_neg hb] at h
        by_cases hs : e.rc ≠ RsslRet.RSSL_RET_SUCCESS
        · rw [if_pos hs] at h
          simp only [Option.some.injEq, Prod.mk.injEq] at h
          rw [← h.2]; exact hP
        · rw [if_neg hs] at h
          exact ih { st with v := st.v ++ [e.rssl_buffer] } b st1 hP h
    · rw [if_neg hv] at h
      by_cases hn : is_next_link_field e.fieldId = true
      · rw [if_pos hn] at h
        by_cases hb : e.rc = RsslRet.RSSL_RET_BLANK_DATA ∨ e.rssl_buffer.length = 0
        · rw [if_pos hb] at h
          exact ih st b st1 hP h
        · rw [if_neg hb] at h
          by_cases hs : e.rc ≠ RsslRet.RSSL_RET_SUCCESS
          · rw [if_pos hs] at h
            simp only [Option.some.injEq, Prod.mk.injEq] at h
            rw [← h.2]; exact hP
          · rw [if_neg hs] at h
            have hlen : ¬ e.rssl_buffer.length = 0 := fun h0 => hb (Or.inr h0)
            rw [if_neg hlen] at h
            cases hl : OnWrite_link env parent index e.rssl_buffer st.app with
            | none => rw [hl] at h; cases h
            | some app1 =>
              rw [hl] at h
              exact ih { st with app := app1 } b st1 (hlink _ _ _ hP hl) h
      · rw [if_neg hn] at h
        exact ih st b st1 hP h

/-- The field loop of `OnWrite` is defined when every creation of a link is. -/
theorem OnWrite_fields_defined (P : chainy_t → Prop) (env : consumer_env)
    (parent : Option Nat) (index : Nat)
    (hlink : ∀ name app, P app → ∃ app1, OnWrite_link env parent index name app = some app1 ∧
      P app1) :
    ∀ (fields : List RsslFieldEntry) (st : fields_state), P st.app →
      ∃ b st1, OnWrite_fields env parent index fields st = some (b, st1) ∧ P st1.app := by
  intro fields
  induction fields with
  | nil => intro st hP; exact ⟨true, st, rfl, hP⟩
  | cons e rest ih =>
    intro st hP
    unfold OnWrite_fields
    by_cases hv : is_value_field e.fieldId = true
    · rw [if_pos hv]
      by_cases hb : e.rc = RsslRet.RSSL_RET_BLANK_DATA ∨ e.rssl_buffer.length = 0
      · rw [if_pos hb]
        exact ih st hP
      · rw [if_neg hb]
        by_cases hs : e.rc ≠ RsslRet.RSSL_RET_SUCCESS
        · rw [if_pos hs]
          exact ⟨false, st, rfl, hP⟩
        · rw [if_neg hs]
          exact ih { st with v := st.v ++ [e.rssl_buffer] } hP
    · rw [if_neg hv]
      by_cases hn : is_next_link_field e.fieldId = true
      · rw [if_pos hn]
        by_cases hb : e.rc = RsslRet.RSSL_RET_BLANK_DATA ∨ e.rssl_buffer.length = 0
        · rw [if_pos hb]
          exact ih st hP
        · rw [if_neg hb]
          by_cases hs : e.rc ≠ RsslRet.RSSL_RET_SUCCESS
          · rw [if_pos hs]
            exact ⟨false, st, rfl, hP⟩
          · rw [if_neg hs]
            have hlen : ¬ e.rssl_buffer.length = 0 := fun h0 => hb (Or.inr h0)
            rw [if_neg hlen]
            obtain ⟨app1, hl, hP1⟩ := hlink e.rssl_buffer st.app hP
            rw [hl]
            exact ih { st with app := app1 } hP1
      · rw [if_neg hn]
        exact ih st hP

theorem same_frame_store (app : chainy_t) (p : Nat) (s s1 : subscription_stream_t)
    (hs : app.heap[p]? = some s) (h1 : s1.item_name = s.item_name) (h2 : s1.index = s.index)
    (h3 : s1.links = s.links) : same_frame app (app.store p s1) := by
  refine ⟨rfl, by simp [chainy_t.store], ?_⟩
  intro q t ht
  by_cases e : p = q
  · subst e
    have : t = s := Option.some.inj (ht.symm.trans hs)
    subst this
    exact ⟨s1, store_heap_self _ _ _ (lt_of_heap_some hs), h1, h2, h3⟩
  · exact ⟨t, by rw [store_heap_ne _ _ _ _ e]; exact ht, rfl, rfl, rfl⟩

/-- The last part of `OnWrite` changes handles and the cache only. -/
theorem OnWrite_publish_frame (env : consumer_env) (stream : Nat) (parent : Option Nat)
    (major minor : Nat) (st : fields_state) (r : OnWrite_result)
    (h : OnWrite_publish env stream parent major minor st = some r) :
    same_frame st.app r.app := by
  unfold OnWrite_publish at h
  split at h
  · rename_i par s hpar hs
    split at h
    · cases h; exact same_frame_refl _
    · rename_i msg hmsg
      simp only at h
      generalize (if s.cow_handle = 0 then env.rsslPayloadEntryCreate else s.cow_handle) = c
        at h
      by_cases hc0 : c = 0
      · rw [if_pos hc0] at h; cases h; exact same_frame_refl _
      · rw [if_neg hc0] at h
        have h1 : same_frame st.app (st.app.store stream { s with cow_handle := c }) :=
          same_frame_store _ _ s _ hs rfl rfl rfl
        split at h
        · cases h; exact h1
        · split at h
          · cases h; exact h1
          · cases h
            refine same_frame_trans h1 ?_
            have hs1 : (st.app.store stream { s with cow_handle := c }).heap[stream]? =
                some { s with cow_handle := c } :=
              store_heap_self _ _ _ (lt_of_heap_some hs)
            have h2 := same_frame_store
              { st.app.store stream { s with cow_handle := c } with
                payload_cache := (c, msg) ::
                  (st.app.store stream { s with cow_handle := c }).payload_cache }
              stream { s with cow_handle := c }
              { s with cow_handle := c, snapshot_handle := c } hs1 rfl rfl rfl
            exact ⟨h2.1, h2.2.1, h2.2.2⟩
  · cases h

theorem OnTrigger_step_frame (app : chainy_t) (it : String × Nat) :
    same_frame app (OnTrigger_step app it) := by
  unfold OnTrigger_step
  split
  · exact same_frame_refl _
  · rename_i stream hstream
    split
    · exact same_frame_refl _
    · split
      · exact same_frame_refl _
      · exact same_frame_store _ _ stream _ hstream rfl rfl rfl

theorem OnTrigger_foldl_frame (xs : List (String × Nat)) :
    ∀ app : chainy_t, same_frame app (xs.foldl OnTrigger_step app) := by
  induction xs with
  | nil => intro app; exact same_frame_refl _
  | cons x xs ih =>
    intro app
    rw [List.foldl_cons]
    exact same_frame_trans (OnTrigger_step_frame app x) (ih _)

/-- Every defined `OnWrite` keeps the invariant. -/
theorem OnWrite_valid (env : consumer_env) (app : chainy_t) (stream : Nat) (major minor : Nat)
    (fields : List RsslFieldEntry) (r : OnWrite_result) (hv : valid app)
    (h : OnWrite env app stream major minor fields = some r) : valid r.app := by
  obtain ⟨s0, parent, hs0, hhead, hcase⟩ := OnWrite_cases env app stream major minor fields r h
  obtain ⟨R, r0, hh, hR, hng, _⟩ := hv.1 stream s0 hs0
  have hp : parent = some R := Option.some.inj (hhead.symm.trans hh)
  subst hp
  have hloop : ∀ b st, OnWrite_fields env (some R) s0.index fields
      { v := [], is_complete := false, app := app } = some (b, st) → valid st.app := by
    intro b st hst
    have := OnWrite_fields_preserves (fun a => valid a ∧ no_gaps a R) env (some R) s0.index
      (by
        intro name a a1 hP hl
        obtain ⟨ra, hra, hha, hposa⟩ := hP.2
        cases hreg : env.CreateItemStream name with
        | none =>
          obtain ⟨a2, hl2, hv2, hng2, _⟩ :=
            valid_link_unregistered env R s0.index name a hP.1 hP.2 hreg
          have : a2 = a1 := Option.some.inj (hl2.symm.trans hl)
          subst this
          exact ⟨hv2, hng2⟩
        | some token =>
          have hb := OnWrite_link_bound env R s0.index name a a1 token ra hra hreg hl
          obtain ⟨a2, _, hl2, hv2, hng2, _⟩ :=
            valid_link_registered env R s0.index name a token ra hP.1 hP.2 hra hb hreg
          have : a2 = a1 := Option.some.inj (hl2.symm.trans hl)
          subst this
          exact ⟨hv2, hng2⟩)
      fields { v := [], is_complete := false, app := app } b st ⟨hv, hng⟩ hst
    exact this.1
  rcases hcase with ⟨_, hf⟩ | ⟨st, hst, _, hf⟩ | ⟨st, hst, hpub⟩
  · rw [hf]; exact hv
  · rw [hf]; exact hloop false st hst
  · exact valid_frame (OnWrite_publish_frame env stream (some R) major minor st r hpub)
      (hloop true st hst)

/-- In a state that satisfies the invariant, `OnWrite` for a registered stream is defined,
whatever the update and the collaborators. -/
theorem OnWrite_defined (env : consumer_env) (app : chainy_t) (stream : Nat) (major minor : Nat)
    (fields : List RsslFieldEntry) (hv : valid app) (hreg : registered app stream) :
    ∃ r, OnWrite env app stream major minor fields = some r := by
  obtain ⟨s0, hs0, hname⟩ := hreg
  obtain ⟨R, r0, hh, hR, hng, hb⟩ := hv.1 stream s0 hs0
  have hbound := hb hname
  unfold OnWrite
  rw [hs0]
  simp only
  cases hlinks : s0.links with
  | nil => rw [hlinks] at hh; cases hh
  | cons p tl =>
    rw [hlinks] at hh
    simp only [List.head?_cons, Option.some.injEq] at hh
    subst hh
    simp only
    split
    · exact ⟨_, rfl⟩
    · split
      · exact ⟨_, rfl⟩
      · split
        · exact ⟨_, rfl⟩
        · obtain ⟨b, st, hst, hP⟩ := OnWrite_fields_defined
            (fun a => valid a ∧ no_gaps a R ∧
              ∃ ra, a.heap[R]? = some ra ∧ 1 + s0.index ≤ ra.links.length)
            env (some R) s0.index
            (by
              intro name a hP
              obtain ⟨hva, hnga, ra, hra, hba⟩ := hP
              cases hreg : env.CreateItemStream name with
              | none =>
                obtain ⟨a1, hl, hv1, hng1, hkeep⟩ :=
                  valid_link_unregistered env R s0.index name a hva hnga hreg
                exact ⟨a1, hl, hv1, hng1, ra, hkeep ra hra, hba⟩
              | some token =>
                obtain ⟨a1, r1, hl, hv1, hng1, hr1, hle⟩ :=
                  valid_link_registered env R s0.index name a token ra hva hnga hra hba hreg
                exact ⟨a1, hl, hv1, hng1, r1, hr1, le_trans hba hle⟩)
            fields { v := [], is_complete := false, app := app }
            ⟨hv, hng, r0, hR, hbound⟩
          rw [hst]
          cases b with
          | false => exact ⟨_, rfl⟩
          | true =>
            simp only
            obtain ⟨_, _, ra, hra, _⟩ := hP
            obtain ⟨s1, hs1, _⟩ := OnWrite_fields_links_changed env (some R) s0.index fields
              _ _ _ hst stream s0 hs0
            obtain ⟨r, _, hpub, _⟩ := OnWrite_publish_defined env stream (some R) major minor
              st ra s1 hra hs1
            exact ⟨r, hpub⟩

theorem ne_empty_of_isEmpty_false (s : String) (h : s.isEmpty = false) : s ≠ "" := by
  intro e
  subst e
  cases h

theorem no_gaps_append (app : chainy_t) (xs : List subscription_stream_t) (root : Nat)
    (h : no_gaps app root) : no_gaps { app with heap := app.heap ++ xs } root := by
  have hkeep : ∀ (q : Nat) (t : subscription_stream_t), app.heap[q]? = some t →
      (app.heap ++ xs)[q]? = some t := by
    intro q t ht
    rw [List.getElem?_append_left (lt_of_heap_some ht)]; exact ht
  obtain ⟨r, hr, hh, hpos⟩ := h
  refine ⟨r, hkeep _ _ hr, hh, ?_⟩
  intro i hi
  obtain ⟨q, t, hq, ht, hti⟩ := hpos i hi
  exact ⟨q, t, hq, hkeep _ _ ht, hti⟩

/-- The invariant is kept when a new root, linked to itself only, is put on the heap. -/
theorem valid_append_root (app : chainy_t) (x : subscription_stream_t) (hv : valid app)
    (hl : x.links = [some app.heap.length]) (hi : x.index = 0) :
    valid { app with heap := app.heap ++ [x] } := by
  have hnew : (app.heap ++ [x])[app.heap.length]? = some x := List.getElem?_concat_length _ _
  have hngx : no_gaps { app with heap := app.heap ++ [x] } app.heap.length := by
    refine ⟨x, hnew, by rw [hl]; rfl, ?_⟩
    intro i hi2
    rw [hl] at hi2 ⊢
    simp only [List.length_singleton, Nat.lt_one_iff] at hi2
    subst hi2
    exact ⟨app.heap.length, x, rfl, hnew, hi⟩
  constructor
  · intro p s hs
    by_cases e : p < app.heap.length
    · have hs' : app.heap[p]? = some s := by
        have : (app.heap ++ [x])[p]? = some s := hs
        rw [List.getElem?_append_left e] at this; exact this
      obtain ⟨root, r, hh, hr, hng, hb⟩ := hv.1 p s hs'
      refine ⟨root, r, hh, ?_, no_gaps_append app [x] root hng, hb⟩
      show (app.heap ++ [x])[root]? = some r
      rw [List.getElem?_append_left (lt_of_heap_some hr)]; exact hr
    · have hp : p = app.heap.length := by
        have := lt_of_heap_some hs
        simp only [List.length_append, List.length_singleton] at this
        omega
      subst hp
      have : s = x := Option.some.inj (hs.symm.trans hnew)
      subst this
      refine ⟨app.heap.length, s, by rw [hl]; rfl, hnew, hngx, ?_⟩
      intro _
      rw [hi, hl]; simp
  · intro it hit
    obtain ⟨s, hs, hh, hn⟩ := hv.2 it hit
    refine ⟨s, ?_, hh, hn⟩
    show (app.heap ++ [x])[it.2]? = some s
    rw [List.getElem?_append_left (lt_of_heap_some hs)]; exact hs

theorem valid_insert (app : chainy_t) (instrument : String) (stream : Nat)
    (s : subscription_stream_t) (hv : valid app) (hs : app.heap[stream]? = some s)
    (hh : s.links.head? = some (some stream)) (hn : s.item_name ≠ "") :
    valid (app.insert instrument stream) := by
  constructor
  · intro p t ht
    rw [insert_heap] at ht
    obtain ⟨root, r, h1, h2, h3, h4⟩ := hv.1 p t ht
    refine ⟨root, r, h1, by rw [insert_heap]; exact h2, ?_, h4⟩
    obtain ⟨r', hr', hh', hpos⟩ := h3
    refine ⟨r', by rw [insert_heap]; exact hr', hh', ?_⟩
    intro i hi
    obtain ⟨q, t', hq, ht', hti⟩ := hpos i hi
    exact ⟨q, t', hq, by rw [insert_heap]; exact ht', hti⟩
  · intro it hit
    rcases insert_streams app instrument stream it hit with h | h
    · obtain ⟨t, ht, h1, h2⟩ := hv.2 it h
      exact ⟨t, by rw [insert_heap]; exact ht, h1, h2⟩
    · subst h
      exact ⟨s, by rw [insert_heap]; exact hs, hh, hn⟩

theorem valid_empty : valid chainy_t.empty := by
  constructor
  · intro p s hs; simp [chainy_t.empty] at hs
  · intro it hit; simp [chainy_t.empty] at hit

/-- The loop of `Initialize` keeps the invariant. -/
theorem Initialize_streams_valid (CreateItemStream : String → Option Int) :
    ∀ (instruments : List String) (app : chainy_t), valid app →
      valid (Initialize_streams CreateItemStream instruments app) := by
  intro instruments
  induction instruments with
  | nil => intro app h; exact h
  | cons instrument rest ih =>
    intro app h
    by_cases he : instrument.isEmpty = true
    · rw [Initialize_streams_empty_line _ _ _ _ he]
      exact ih app h
    · have he2 : instrument.isEmpty = false := by simpa using he
      cases hreg : CreateItemStream instrument with
      | none =>
        rw [Initialize_streams_unregistered _ _ _ _ he2 hreg]
        exact ih _ (valid_append_root app _ h rfl rfl)
      | some token =>
        rw [Initialize_streams_registered _ _ _ _ token he2 hreg]
        apply ih
        exact valid_insert _ instrument app.heap.length
          (new_link app.heap.length 0 instrument token)
          (valid_append_root app _ h rfl rfl) (List.getElem?_concat_length _ _) rfl
          (ne_empty_of_isEmpty_false instrument he2)

theorem Initialize_valid (env : startup_env) (instruments : List String) :
    valid (Initialize env instruments).2 := by
  unfold Initialize
  cases env.upa_Initialize <;> cases env.consumer_Initialize <;>
    cases env.provider_Initialize <;>
    first
      | exact valid_empty
      | exact Initialize_streams_valid env.CreateItemStream instruments _ valid_empty

theorem step_valid (app app1 : chainy_t) (op : Op) (hv : valid app)
    (h : step app op = some app1) : valid app1 := by
  cases op with
  | OnWrite env stream major minor fields =>
    simp only [step, Option.map_eq_some'] at h
    obtain ⟨r, hr, e⟩ := h
    rw [← e]
    exact OnWrite_valid env app stream major minor fields r hv hr
  | OnTrigger =>
    simp only [step, Option.some.injEq] at h
    rw [← h]
    exact valid_frame (OnTrigger_foldl_frame app.streams_ app) hv
  | OnSync =>
    simp only [step, OnSync, Option.some.injEq] at h
    rw [← h]; exact hv
  | OnRequest env req =>
    simp only [step] at h
    split at h
    · cases h; exact hv
    · cases h

theorem run_valid (ops : List Op) :
    ∀ (app app1 : chainy_t), valid app → run app ops = some app1 → valid app1 := by
  induction ops with
  | nil =>
    intro app app1 hv h
    simp only [run, Option.some.injEq] at h
    rw [← h]; exact hv
  | cons op ops ih =>
    intro app app1 hv h
    simp only [run] at h
    cases hstep : step app op with
    | none => rw [hstep] at h; cases h
    | some app2 =>
      rw [hstep] at h
      exact ih app2 app1 (step_valid app app2 op hv hstep) h

/-- C13: the no-gap invariant.  In every state reached from `Initialize` by a sequence of
`OnWrite`, `OnTrigger`, `OnSync` and `OnRequest` calls, every chain in the store starts with
its root, and every position `i` of its link vector holds a non-null pointer to a link whose
index is `i`. -/
theorem no_gap_invariant (env : startup_env) (instruments : List String) (ops : List Op)
    (app : chainy_t) (hrun : run (Initialize env instruments).2 ops = some app) :
    ∀ it ∈ app.streams_, ∃ r, app.heap[it.2]? = some r ∧ r.links[0]? = some (some it.2) ∧
      ∀ i, i < r.links.length →
        ∃ q t, r.links[i]? = some (some q) ∧ app.heap[q]? = some t ∧ t.index = i := by
  have hv := run_valid ops _ app (Initialize_valid env instruments) hrun
  intro it hit
  obtain ⟨s, hs, hh, _⟩ := hv.2 it hit
  obtain ⟨root, r, hh2, _, hng, _⟩ := hv.1 it.2 s hs
  have e : root = it.2 := by
    have := hh2.symm.trans hh
    simpa using this
  subst e
  obtain ⟨r', hr', hh', hpos⟩ := hng
  refine ⟨r', hr', ?_, hpos⟩
  rw [← hh']
  cases r'.links <;> simp

/-- C18: index safety of chain growth.  In every state reached from `Initialize`, a
registered stream with index `i` has a parent whose chain has at least `i + 1` links, and
`OnWrite` for it is defined whatever the update and the collaborators: the position `i + 1`
it writes is within the link vector after the conditional resize.  The roots in the store are
registered streams. -/
theorem OnWrite_index_safe (env0 : startup_env) (instruments : List String) (ops : List Op)
    (app : chainy_t) (hrun : run (Initialize env0 instruments).2 ops = some app) :
    (∀ it ∈ app.streams_, registered app it.2) ∧
    ∀ stream, registered app stream →
      (∃ s root r, app.heap[stream]? = some s ∧ s.links.head? = some (some root) ∧
        app.heap[root]? = some r ∧ s.index + 1 ≤ r.links.length) ∧
      ∀ env major minor fields, ∃ res, OnWrite env app stream major minor fields = some res := by
  have hv := run_valid ops _ app (Initialize_valid env0 instruments) hrun
  constructor
  · intro it hit
    obtain ⟨s, hs, _, hn⟩ := hv.2 it hit
    exact ⟨s, hs, hn⟩
  · intro stream hreg
    constructor
    · obtain ⟨s, hs, hn⟩ := hreg
      obtain ⟨root, r, hh, hr, _, hb⟩ := hv.1 stream s hs
      exact ⟨s, root, r, hs, hh, hr, by have := hb hn; omega⟩
    · intro env major minor fields
      exact OnWrite_defined env app stream major minor fields hv hreg

/-- Witness for C13: the store made by `Initialize` for the instruments `FOO` and `BAR`, after
an update of `FOO` naming `FOO.1`, a scan, an update of `FOO.1` naming `FOO.2`, a sync and a
blank update of `FOO.2`. -/
theorem no_gap_invariant_witness :
    ∃ app,
      run (Initialize startup_env.ok ["FOO", "BAR"]).2
        [Op.OnWrite consumer_env.ok 0 14 1 [next_link "FOO.1"], Op.OnTrigger,
          Op.OnWrite consumer_env.ok 2 14 1 [next_link "FOO.2"], Op.OnSync,
          Op.OnWrite consumer_env.ok 3 14 1 [blank_next_link]] = some app ∧
      ∀ it ∈ app.streams_, ∃ r, app.heap[it.2]? = some r ∧ r.links[0]? = some (some it.2) ∧
        ∀ i, i < r.links.length →
          ∃ q t, r.links[i]? = some (some q) ∧ app.heap[q]? = some t ∧ t.index = i :=
  ⟨_, rfl,
    no_gap_invariant startup_env.ok ["FOO", "BAR"]
      [Op.OnWrite consumer_env.ok 0 14 1 [next_link "FOO.1"], Op.OnTrigger,
        Op.OnWrite consumer_env.ok 2 14 1 [next_link "FOO.2"], Op.OnSync,
        Op.OnWrite consumer_env.ok 3 14 1 [blank_next_link]] _ rfl⟩

/-- Witness for C18: the store made by `Initialize` for the instrument `FOO`, after an update
of `FOO` naming `FOO.1` and an update of `FOO.1` naming `FOO.2`. -/
theorem OnWrite_index_safe_witness :
    ∃ app,
      run (Initialize startup_env.ok ["FOO"]).2
        [Op.OnWrite consumer_env.ok 0 14 1 [next_link "FOO.1"],
          Op.OnWrite consumer_env.ok 1 14 1 [next_link "FOO.2"]] = some app ∧
      (∀ it ∈ app.streams_, registered app it.2) ∧
      ∀ stream, registered app stream →
        (∃ s root r, app.heap[stream]? = some s ∧ s.links.head? = some (some root) ∧
          app.heap[root]? = some r ∧ s.index + 1 ≤ r.links.length) ∧
        ∀ env major minor fields, ∃ res, OnWrite env app stream major minor fields = some res :=
  ⟨_, rfl,
    OnWrite_index_safe startup_env.ok ["FOO"]
      [Op.OnWrite consumer_env.ok 0 14 1 [next_link "FOO.1"],
        Op.OnWrite consumer_env.ok 1 14 1 [next_link "FOO.2"]] _ rfl⟩

end chainy
